import Mathlib

/-!
Verification of the knowledge-graph construction and retrieval pipeline
(`build_KG.py`, `create_KG_in_neo4j.py`, `knowledge_retriever.py`,
`utils/entity_normalizer.py`) against its natural-language specification.

The Python code is shallowly embedded: strings are Lean `String`s, Python
dictionaries with a fixed shape become structures, insertion-ordered
Python `dict`s keyed by strings become association lists, and external
services (the language-model API, the Neo4j driver, SQLite) are abstracted
as parameters.  All definitions are executable and kernel-reducible; the
string primitives below reimplement the exact Python `str` operations the
source relies on (structural recursion only, so that `decide`/`rfl` can
evaluate them).
-/

namespace KGPipeline

/-! ## Python string primitives

Reimplementations of the Python `str` operations used by the source:
`strip`, `lower`, `replace` (single characters only, which is all the
source uses), substring containment (`in`), and whitespace `split()`.
Only ASCII and Latin-1 letters are lowercased, matching every string
constant appearing in the repository.
-/

/-- Python `str.lower` on a single character: ASCII `A`–`Z` and the
Latin-1 uppercase range `À`–`Þ` (minus `×`) map down by 32. -/
def pyLowerChar (c : Char) : Char :=
  if 65 ≤ c.toNat ∧ c.toNat ≤ 90 then Char.ofNat (c.toNat + 32)
  else if 192 ≤ c.toNat ∧ c.toNat ≤ 222 ∧ c.toNat ≠ 215 then Char.ofNat (c.toNat + 32)
  else c

/-- Python `str.lower`. -/
def pyLower (s : String) : String := String.mk (s.data.map pyLowerChar)

/-- Characters Python `str.strip()` / `str.split()` treat as whitespace
(the ASCII ones; the source never feeds exotic Unicode spaces). -/
def pyIsSpace (c : Char) : Bool :=
  c = ' ' ∨ c = '\t' ∨ c = '\n' ∨ c = '\x0d' ∨ c = '\x0b' ∨ c = '\x0c'

/-- Python `str.strip()` (no argument): drop whitespace from both ends. -/
def pyStrip (s : String) : String :=
  String.mk (((s.data.dropWhile pyIsSpace).reverse.dropWhile pyIsSpace).reverse)

/-- Python single-character `str.replace(old, new)`; the source only ever
replaces one character by one character. -/
def pyReplaceChar (old new : Char) (s : String) : String :=
  String.mk (s.data.map (fun c => if c = old then new else c))

/-- `needle` is a prefix of `hay` (on character lists). -/
def charStartsWith : List Char → List Char → Bool
  | [], _ => true
  | _ :: _, [] => false
  | a :: as, b :: bs => a = b && charStartsWith as bs

/-- `needle` occurs as a contiguous substring of `hay` (on character lists). -/
def charContains (needle : List Char) : List Char → Bool
  | [] => needle.isEmpty
  | hay@(_ :: rest) => charStartsWith needle hay || charContains needle rest

/-- Python `needle in hay` for strings (substring containment). -/
def pyIn (needle hay : String) : Bool := charContains needle.data hay.data

/-- Helper for `pyWords`: single pass accumulating the current word. -/
def pyWordsAux (cur : List Char) : List Char → List String
  | [] => if cur.isEmpty then [] else [String.mk cur.reverse]
  | c :: rest =>
    if pyIsSpace c then
      if cur.isEmpty then pyWordsAux [] rest
      else String.mk cur.reverse :: pyWordsAux [] rest
    else pyWordsAux (c :: cur) rest

/-- Python `str.split()` with no argument: split on whitespace runs,
never producing empty words. -/
def pyWords (s : String) : List String := pyWordsAux [] s.data

/-- Python `" ".join ws`. -/
def pyJoinSpace (ws : List String) : String := String.intercalate " " ws

/-- Helper for `firstOccs`: keep elements not seen before. -/
def firstOccsAux {α : Type} [DecidableEq α] (seen : List α) : List α → List α
  | [] => []
  | x :: xs =>
    if x ∈ seen then firstOccsAux seen xs
    else x :: firstOccsAux (x :: seen) xs

/-- First occurrences of each element, in order of first appearance
(the iteration order of a Python `dict`/`Counter` built from the list,
and the effect of `list(dict.fromkeys(...))`). -/
def firstOccs {α : Type} [DecidableEq α] (l : List α) : List α :=
  firstOccsAux [] l

/-- Stable insertion into a `le`-sorted list: an element is placed before
later equal elements, as in Python's stable `sorted`. -/
def insertLe {α : Type} (le : α → α → Bool) (x : α) : List α → List α
  | [] => [x]
  | y :: ys => if le x y then x :: y :: ys else y :: insertLe le x ys

/-- Stable insertion sort (structural recursion, so the kernel can
evaluate it inside `decide`/`rfl`). -/
def pySort {α : Type} (le : α → α → Bool) : List α → List α
  | [] => []
  | x :: xs => insertLe le x (pySort le xs)

/-- Python `sorted(list(set(l)))`: deduplicate, then sort.  (Which
duplicate survives is irrelevant after sorting; we keep first
occurrences.) -/
def pySortedDedup (l : List String) : List String :=
  pySort (fun a b => decide (a ≤ b)) (firstOccs l)

/-! ### Association lists

Insertion-ordered Python `dict`s become association lists: a lookup finds
the first (and, by construction, only) entry with the given key; updating
an existing key keeps its position; a fresh key is appended at the end. -/

/-- First value stored under key `k`. -/
def alookup {α β : Type} [DecidableEq α] (k : α) : List (α × β) → Option β
  | [] => none
  | (a, b) :: tl => if a = k then some b else alookup k tl

/-- The key list of an association list. -/
def akeys {α β : Type} (l : List (α × β)) : List α := l.map Prod.fst

/-- Replace the value stored under key `k` (no-op on other entries). -/
def aupdate {α β : Type} [DecidableEq α] (k : α) (v : β) :
    List (α × β) → List (α × β)
  | [] => []
  | (a, b) :: tl =>
    if a = k then (k, v) :: aupdate k v tl else (a, b) :: aupdate k v tl

/-! ## `utils/entity_normalizer.py` — the Entity Normalizer

`EntityNormalizer.NORMALIZATION_MAP` is an insertion-ordered `dict`
(variant phrase → canonical term); `STOP_WORDS` a set of Italian stop
words.  Apostrophes inside string literals are written `\x27`. -/

/-- `EntityNormalizer.NORMALIZATION_MAP`, in source insertion order. -/
def NORMALIZATION_MAP : List (String × String) := [
  ("password", "password"),
  ("parola d\x27accesso", "password"),
  ("credenziali", "password"),
  ("pwd", "password"),
  ("dgue", "dgue"),
  ("documento unico europeo", "dgue"),
  ("documento unico", "dgue"),
  ("d.g.u.e.", "dgue"),
  ("empulia", "empulia"),
  ("piattaforma empulia", "empulia"),
  ("sistema empulia", "empulia"),
  ("em pulia", "empulia"),
  ("albo fornitori", "albo fornitori"),
  ("albo", "albo fornitori"),
  ("registro fornitori", "albo fornitori"),
  ("elenco fornitori", "albo fornitori"),
  ("iscrizione", "iscrizione"),
  ("registrazione", "iscrizione"),
  ("iscrizione albo", "iscrizione"),
  ("registrazione albo", "iscrizione"),
  ("fornitore", "fornitore"),
  ("operatore economico", "fornitore"),
  ("impresa", "fornitore"),
  ("ditta", "fornitore"),
  ("società", "fornitore"),
  ("documento", "documento"),
  ("documentazione", "documento"),
  ("documentazione richiesta", "documento"),
  ("allegato", "documento"),
  ("accesso", "accesso"),
  ("login", "accesso"),
  ("autenticazione", "accesso"),
  ("log in", "accesso"),
  ("entrata", "accesso"),
  ("procedura", "procedura"),
  ("processo", "procedura"),
  ("iter", "procedura"),
  ("prassi", "procedura"),
  ("cambiare", "modificare"),
  ("modificare", "modificare"),
  ("aggiornare", "modificare"),
  ("sostituire", "modificare"),
  ("reimpostare", "modificare"),
  ("reset", "reset"),
  ("ripristino", "reset"),
  ("azzeramento", "reset"),
  ("reimpostazione", "reset")]

/-- `EntityNormalizer.STOP_WORDS`. -/
def STOP_WORDS : List String :=
  ["il", "la", "lo", "gli", "le", "i",
   "un", "una", "uno",
   "del", "della", "dei", "delle", "dello", "degli",
   "di", "da", "in", "con", "per", "su", "tra", "fra",
   "a", "e", "o", "ma", "se", "come", "quando", "dove",
   "che", "chi", "cui", "quanto", "quale", "questo", "quello",
   "mio", "tuo", "suo", "nostro", "vostro", "loro",
   "mia", "tua", "sua", "nostra", "vostra"]

/-- The cleaning prefix of `normalize_entity_name`: strip, lowercase, then
the four single-character `replace` calls of the source (curly-quote
replacement is written there as the identity replacement of `'` by `'`;
backtick goes to `'`, en/em dashes go to `-`). -/
def cleanName (name : String) : String :=
  let n := pyLower (pyStrip name)
  let n := pyReplaceChar (Char.ofNat 39) (Char.ofNat 39) n
  let n := pyReplaceChar (Char.ofNat 96) (Char.ofNat 39) n
  let n := pyReplaceChar (Char.ofNat 0x2013) '-' n
  pyReplaceChar (Char.ofNat 0x2014) '-' n

/-- The synonym-table phase of `normalize_entity_name`: exact lookup
first, then a substring scan in insertion order (first match wins). -/
def findMapMatch (n : String) : Option String :=
  match alookup n NORMALIZATION_MAP with
  | some v => some v
  | none => (NORMALIZATION_MAP.find? (fun kv => pyIn kv.1 n)).map Prod.snd

/-- `EntityNormalizer.normalize_entity_name`. -/
def normalize_entity_name (name : String) : String :=
  if pyStrip name = "" then ""
  else
    let normalized := cleanName name
    match findMapMatch normalized with
    | some v => v
    | none =>
      let filtered := (pyWords normalized).filter
        (fun w => !(STOP_WORDS.contains w) && decide (1 < w.length))
      if filtered.isEmpty then normalized else pyJoinSpace filtered

/-- An element of the `entita_chiave` list of a query analysis: a Python
dict with keys `nome` and `tipo`. -/
structure KeyEntityDict where
  nome : String
  tipo : String
  deriving DecidableEq, Repr

/-- Result entry of `EntityNormalizer.normalize_entity_list`: a copy of
the input dict with `nome_originale` and `nome_normalizzato` added. -/
structure NormalizedEntity where
  nome : String
  tipo : String
  nome_originale : String
  nome_normalizzato : String
  deriving DecidableEq, Repr

/-- `EntityNormalizer.normalize_entity_list`: normalize each name, keep
only entries whose normalized name is nonempty. -/
def normalize_entity_list (es : List KeyEntityDict) : List NormalizedEntity :=
  es.filterMap (fun e =>
    let nn := normalize_entity_name e.nome
    if nn = "" then none
    else some { nome := e.nome, tipo := e.tipo,
                nome_originale := e.nome, nome_normalizzato := nn })

/-- `EntityNormalizer.create_search_patterns`: original lowercased name,
normalized name, all synonym-table keys mapping to the same canonical
value, and long-enough single words — each appended only if absent. -/
def create_search_patterns (entity_name : String) : List String :=
  let p0 : List String := if entity_name ≠ "" then [pyLower entity_name] else []
  let normalized := normalize_entity_name entity_name
  let p1 := if normalized ≠ "" ∧ normalized ∉ p0 then p0 ++ [normalized] else p0
  let p2 := NORMALIZATION_MAP.foldl
    (fun acc kv => if kv.2 = normalized ∧ kv.1 ∉ acc then acc ++ [kv.1] else acc) p1
  let words := if normalized ≠ "" then pyWords normalized else []
  words.foldl (fun acc w => if 2 < w.length ∧ w ∉ acc then acc ++ [w] else acc) p2


/-! ## `build_KG.py` — closed relation vocabulary and aggregation -/

/-- `RELATION_TYPES` of `build_KG.py`: the closed predicate vocabulary. -/
def RELATION_TYPES : List String :=
  ["haPassoSuccessivo", "precede", "richiedeInput", "haCampo",
   "èEseguitaDa", "puòEseguire", "haSottoFunzionalità", "includeOperazione",
   "generaDocumento", "richiedeDocumento", "haPrerequisito", "èVincolatoDa",
   "haStato", "puòAvereStato", "interagisceCon", "inviaDatiA",
   "haTermine", "scadeIl", "mostraMessaggio", "produceNotifica",
   "èDescrittoIn", "provieneDa", "utilizzaFormula", "haCriterioDiValutazione",
   "siApplicaA", "riguarda", "èParteDi", "contieneElemento", "rimandaA"]

/-- A raw entity mention as handed to `aggregate_knowledge_improved`:
the validated extraction dict plus the provenance keys attached by
`extract_knowledge_from_chunks`.  Optional keys are `Option` (`none` is
Python `None`/missing). -/
structure RawEntity where
  nome_entita : String
  tipo_entita : String
  descrizione_entita : Option String
  source_chunk_id : Option String
  source_page_number : Option Int
  source_section_title : Option String
  deriving DecidableEq, Repr

/-- A raw relation mention (triple plus context and provenance). -/
structure RawRelation where
  soggetto : String
  predicato : String
  oggetto : String
  contesto_relazione : Option String
  source_chunk_id : Option String
  source_page_number : Option Int
  source_section_title : Option String
  deriving DecidableEq, Repr

/-- The stripped surface name of a mention
(`name = entity.get("nome_entita", "").strip()`). -/
def entName (e : RawEntity) : String := pyStrip e.nome_entita

/-- A mention enters aggregation iff both `name` and `tipo_entita` are
truthy (`if not name or not etype: continue`). -/
def entValid (e : RawEntity) : Bool :=
  entName e ≠ "" && e.tipo_entita ≠ ""

/-- The aggregation bucket key: `norm_name = name.lower()` — the plain
lowercased stripped surface name. -/
def entKey (e : RawEntity) : String := pyLower (entName e)

/-- The accumulating value of `unique_entities_dict` for one key. -/
structure EntityBucket where
  nomi_originali : List String
  tipi_rilevati : List String
  descrizioni : List String
  fonti_chunk_id : List String
  fonti_pagina : List Int
  fonti_sezione : List String
  conteggio_occorrenze : Nat
  deriving DecidableEq, Repr

/-- Truthiness of an optional string: present and nonempty. -/
def optTruthy (o : Option String) : Bool :=
  match o with
  | none => false
  | some s => s ≠ ""

/-- The bucket created when a key is seen first
(note: the initial `descrizioni` filter keeps the description
*unstripped*, exactly as the source list comprehension does). -/
def initEntityBucket (e : RawEntity) : EntityBucket :=
  { nomi_originali := [entName e]
    tipi_rilevati := [e.tipo_entita]
    descrizioni :=
      match e.descrizione_entita with
      | some d => if d ≠ "" ∧ pyStrip d ≠ "" then [d] else []
      | none => []
    fonti_chunk_id := match e.source_chunk_id with
      | some c => if c ≠ "" then [c] else []
      | none => []
    fonti_pagina := match e.source_page_number with
      | some p => [p]
      | none => []
    fonti_sezione := match e.source_section_title with
      | some s => if s ≠ "" then [s] else []
      | none => []
    conteggio_occorrenze := 1 }

/-- The update applied when the key already exists (here the appended
description *is* stripped, as in the source `else` branch). -/
def updEntityBucket (b : EntityBucket) (e : RawEntity) : EntityBucket :=
  { nomi_originali := b.nomi_originali ++ [entName e]
    tipi_rilevati := b.tipi_rilevati ++ [e.tipo_entita]
    descrizioni :=
      match e.descrizione_entita with
      | some d => if d ≠ "" ∧ pyStrip d ≠ "" then b.descrizioni ++ [pyStrip d]
                  else b.descrizioni
      | none => b.descrizioni
    fonti_chunk_id := match e.source_chunk_id with
      | some c => if c ≠ "" then b.fonti_chunk_id ++ [c] else b.fonti_chunk_id
      | none => b.fonti_chunk_id
    fonti_pagina := match e.source_page_number with
      | some p => b.fonti_pagina ++ [p]
      | none => b.fonti_pagina
    fonti_sezione := match e.source_section_title with
      | some s => if s ≠ "" then b.fonti_sezione ++ [s] else b.fonti_sezione
      | none => b.fonti_sezione
    conteggio_occorrenze := b.conteggio_occorrenze + 1 }

/-- One iteration of the entity loop of `aggregate_knowledge_improved`. -/
def aggEntStep (m : List (String × EntityBucket)) (e : RawEntity) :
    List (String × EntityBucket) :=
  if entValid e then
    match alookup (entKey e) m with
    | some b => aupdate (entKey e) (updEntityBucket b e) m
    | none => m ++ [(entKey e, initEntityBucket e)]
  else m

/-- The full `unique_entities_dict` after the entity loop. -/
def aggEntBuckets (es : List RawEntity) : List (String × EntityBucket) :=
  es.foldl aggEntStep []

/-! ### `Counter(...).most_common(1)[0][0]`

`collections.Counter` counts list elements; `most_common` sorts by count
descending with a stable sort over insertion order, so `most_common(1)`
yields the element of maximal count whose first occurrence is earliest. -/

/-- Fold step: keep the current best unless a strictly larger count
appears later (ties keep the earlier candidate). -/
def mcGo (l : List String) : String → List String → String
  | b, [] => b
  | b, c :: cs => mcGo l (if l.count b < l.count c then c else b) cs

/-- `Counter(l).most_common(1)[0][0]`; `""` for the empty list (on which
the Python expression would raise, but every bucket is nonempty). -/
def mostCommon (l : List String) : String :=
  match firstOccs l with
  | [] => ""
  | c :: cs => mcGo l c cs

/-- A finalized aggregated entity (one output record of
`aggregate_knowledge_improved`). -/
structure AggregatedEntity where
  nome_entita_canonico_provvisorio : String
  nome_entita_norm : String
  tipo_entita_canonico_provvisorio : String
  tutti_nomi_originali : List String
  tutti_tipi_rilevati : List String
  descrizioni_aggregate : List String
  fonti_chunk_id : List String
  fonti_pagina : List Int
  fonti_sezione : List String
  conteggio_occorrenze : Nat
  deriving DecidableEq, Repr

/-- Finalization of one bucket: most-common name/type, deduplicated and
sorted provenance. -/
def finalizeEntityBucket (kb : String × EntityBucket) : AggregatedEntity :=
  { nome_entita_canonico_provvisorio := mostCommon kb.2.nomi_originali
    nome_entita_norm := kb.1
    tipo_entita_canonico_provvisorio := mostCommon kb.2.tipi_rilevati
    tutti_nomi_originali := pySortedDedup kb.2.nomi_originali
    tutti_tipi_rilevati := pySortedDedup kb.2.tipi_rilevati
    descrizioni_aggregate := pySortedDedup kb.2.descrizioni
    fonti_chunk_id := pySortedDedup kb.2.fonti_chunk_id
    fonti_pagina := pySort (fun a b => decide (a ≤ b)) (firstOccs kb.2.fonti_pagina)
    fonti_sezione := pySortedDedup kb.2.fonti_sezione
    conteggio_occorrenze := kb.2.conteggio_occorrenze }

/-- The entity half of `aggregate_knowledge_improved`. -/
def aggregateEntitiesImproved (es : List RawEntity) : List AggregatedEntity :=
  (aggEntBuckets es).map finalizeEntityBucket

/-- A relation mention enters aggregation iff subject, predicate and
object are all truthy after stripping. -/
def relValid (r : RawRelation) : Bool :=
  pyStrip r.soggetto ≠ "" && pyStrip r.predicato ≠ "" && pyStrip r.oggetto ≠ ""

/-- The relation aggregation key: the lowercased stripped triple. -/
def relKey (r : RawRelation) : String × String × String :=
  (pyLower (pyStrip r.soggetto), pyLower (pyStrip r.predicato),
   pyLower (pyStrip r.oggetto))

/-- The accumulating value of `unique_relations_dict` for one triple. -/
structure RelBucket where
  contesti : List String
  fonti_chunk_id : List String
  fonti_pagina : List Int
  fonti_sezione : List String
  conteggio_occorrenze : Nat
  deriving DecidableEq, Repr

/-- Bucket created for a relation triple seen first (context kept
unstripped, as in the source list comprehension). -/
def initRelBucket (r : RawRelation) : RelBucket :=
  { contesti := match r.contesto_relazione with
      | some c => if c ≠ "" ∧ pyStrip c ≠ "" then [c] else []
      | none => []
    fonti_chunk_id := match r.source_chunk_id with
      | some c => if c ≠ "" then [c] else []
      | none => []
    fonti_pagina := match r.source_page_number with
      | some p => [p]
      | none => []
    fonti_sezione := match r.source_section_title with
      | some s => if s ≠ "" then [s] else []
      | none => []
    conteggio_occorrenze := 1 }

/-- Update for a triple already present (appended context is stripped). -/
def updRelBucket (b : RelBucket) (r : RawRelation) : RelBucket :=
  { contesti := match r.contesto_relazione with
      | some c => if c ≠ "" ∧ pyStrip c ≠ "" then b.contesti ++ [pyStrip c]
                  else b.contesti
      | none => b.contesti
    fonti_chunk_id := match r.source_chunk_id with
      | some c => if c ≠ "" then b.fonti_chunk_id ++ [c] else b.fonti_chunk_id
      | none => b.fonti_chunk_id
    fonti_pagina := match r.source_page_number with
      | some p => b.fonti_pagina ++ [p]
      | none => b.fonti_pagina
    fonti_sezione := match r.source_section_title with
      | some s => if s ≠ "" then b.fonti_sezione ++ [s] else b.fonti_sezione
      | none => b.fonti_sezione
    conteggio_occorrenze := b.conteggio_occorrenze + 1 }

/-- One iteration of the relation loop of `aggregate_knowledge_improved`. -/
def aggRelStep (m : List ((String × String × String) × RelBucket))
    (r : RawRelation) : List ((String × String × String) × RelBucket) :=
  if relValid r then
    match alookup (relKey r) m with
    | some b => aupdate (relKey r) (updRelBucket b r) m
    | none => m ++ [(relKey r, initRelBucket r)]
  else m

/-- One output record of the relation half of
`aggregate_knowledge_improved`. -/
structure AggregatedRelation where
  soggetto_norm : String
  predicato_norm : String
  oggetto_norm : String
  contesti : List String
  fonti_chunk_id : List String
  fonti_pagina : List Int
  fonti_sezione : List String
  conteggio_occorrenze : Nat
  deriving DecidableEq, Repr

/-- Finalization of one relation bucket. -/
def finalizeRelBucket (kb : (String × String × String) × RelBucket) :
    AggregatedRelation :=
  { soggetto_norm := kb.1.1
    predicato_norm := kb.1.2.1
    oggetto_norm := kb.1.2.2
    contesti := pySortedDedup kb.2.contesti
    fonti_chunk_id := pySortedDedup kb.2.fonti_chunk_id
    fonti_pagina := pySort (fun a b => decide (a ≤ b)) (firstOccs kb.2.fonti_pagina)
    fonti_sezione := pySortedDedup kb.2.fonti_sezione
    conteggio_occorrenze := kb.2.conteggio_occorrenze }

/-- The relation half of `aggregate_knowledge_improved`. -/
def aggregateRelationsImproved (rs : List RawRelation) : List AggregatedRelation :=
  (rs.foldl aggRelStep []).map finalizeRelBucket

/-! ## `build_KG.py` — LLM clustering

`prepare_*_for_clustering` attach positional ids; the model's proposed
clusters come back as JSON and are parsed by
`parse_combined_clustering_output`; `process_combined_batch` degrades to
per-record singleton clusters when the model output is empty or
unparseable; `finalize_entity_clusters` merges accepted clusters
first-writer-wins and turns every unclaimed id into a singleton. -/

/-- One record of `prepare_entities_for_clustering` (the pipeline always
feeds records of `aggregate_knowledge_improved`, so only that branch of
the source's structure dispatch is modelled). -/
structure EntityForClustering where
  id : Int
  nome_principale : String
  tipo_principale : String
  tutti_nomi : List String
  tutti_tipi : List String
  descrizioni : List String
  occorrenze : Nat
  deriving DecidableEq, Repr

/-- `prepare_entities_for_clustering`. -/
def prepareEntitiesForClustering (aes : List AggregatedEntity) :
    List EntityForClustering :=
  aes.enum.map (fun ie =>
    { id := (ie.1 : Int)
      nome_principale := ie.2.nome_entita_canonico_provvisorio
      tipo_principale := ie.2.tipo_entita_canonico_provvisorio
      tutti_nomi := ie.2.tutti_nomi_originali
      tutti_tipi := ie.2.tutti_tipi_rilevati
      descrizioni := ie.2.descrizioni_aggregate.take 2
      occorrenze := ie.2.conteggio_occorrenze })

/-- One record of `prepare_relations_for_clustering`. -/
structure RelationForClustering where
  id : Int
  soggetto : String
  predicato : String
  oggetto : String
  contesti : List String
  occorrenze : Nat
  deriving DecidableEq, Repr

/-- `prepare_relations_for_clustering`. -/
def prepareRelationsForClustering (ars : List AggregatedRelation) :
    List RelationForClustering :=
  ars.enum.map (fun ir =>
    { id := (ir.1 : Int)
      soggetto := ir.2.soggetto_norm
      predicato := ir.2.predicato_norm
      oggetto := ir.2.oggetto_norm
      contesti := ir.2.contesti.take 1
      occorrenze := ir.2.conteggio_occorrenze })

/-- A JSON value, as decoded by `json.loads`. -/
inductive Json where
  | null
  | boolean (b : Bool)
  | num (n : Int)
  | str (s : String)
  | arr (elems : List Json)
  | obj (fields : List (String × Json))

/-- Python iteration over a decoded JSON value: lists yield elements,
dicts yield their keys, strings yield characters; numbers, booleans and
`None` raise `TypeError`. -/
def jIter : Json → Except Unit (List Json)
  | Json.arr l => Except.ok l
  | Json.obj fs => Except.ok (fs.map (fun kv => Json.str kv.1))
  | Json.str s => Except.ok (s.data.map (fun c => Json.str (String.mk [c])))
  | _ => Except.error ()

/-- `.get(k)` restricted to string values (missing or non-string → `none`). -/
def asStr (o : Option Json) : Option String :=
  match o with
  | some (Json.str s) => some s
  | _ => none

/-- All elements are JSON integers, extracted in order.  (A member id of
any other JSON type is accepted by the Python parser, but then crashes
the pipeline later with an unhandled `TypeError` in
`combine_cluster_data`; such inputs are outside the modelled domain.) -/
def allInts (l : List Json) : Option (List Int) :=
  l.mapM (fun j => match j with | Json.num n => some n | _ => none)

/-- An entity cluster proposed by the model, after parsing (fields other
than `membri_ids` default when missing, via `.get`). -/
structure EntityClusterProposal where
  membri_ids : List Int
  nome_cluster : Option String
  tipo_cluster : Option String
  motivazione : Option String
  deriving DecidableEq, Repr

/-- A relation cluster proposed by the model, after parsing; the parser
has already forced `predicato_cluster` through vocabulary correction. -/
structure RelClusterProposal where
  membri_ids : List Int
  soggetto_cluster : Option String
  predicato_cluster : String
  oggetto_cluster : Option String
  motivazione : Option String
  deriving DecidableEq, Repr

/-- `find_closest_predicate`: keyword-based correction of an
out-of-vocabulary predicate.  The `mappings` dict, in source order. -/
def PREDICATE_MAPPINGS : List (String × String) :=
  [("esegue", "puòEseguire"),
   ("eseguita", "èEseguitaDa"),
   ("parte", "èParteDi"),
   ("contiene", "contieneElemento"),
   ("richiede", "richiedeInput"),
   ("genera", "generaDocumento"),
   ("interagisce", "interagisceCon"),
   ("descritto", "èDescrittoIn")]

/-- `find_closest_predicate(invalid_predicate)`. -/
def find_closest_predicate (invalid_predicate : String) : String :=
  let invalidLower := pyLower invalid_predicate
  match PREDICATE_MAPPINGS.find? (fun kv => pyIn kv.1 invalidLower) with
  | some kv => kv.2
  | none => "riguarda"

/-- Filter for `entita_clusters` items: a dict with a nonempty
`membri_ids` list is accepted, everything else silently skipped. -/
def parseEntityClusterItem (j : Json) : Option EntityClusterProposal :=
  match j with
  | Json.obj fs =>
    match alookup "membri_ids" fs with
    | some (Json.arr ids) =>
      if ids.isEmpty then none
      else
        match allInts ids with
        | some ints =>
          some { membri_ids := ints
                 nome_cluster := asStr (alookup "nome_cluster" fs)
                 tipo_cluster := asStr (alookup "tipo_cluster" fs)
                 motivazione := asStr (alookup "motivazione" fs) }
        | none => none
    | _ => none
  | _ => none

/-- Extraction/correction of `predicato_cluster` for an accepted relation
cluster: a string predicate outside `RELATION_TYPES` goes through
`find_closest_predicate`; a missing predicate defaults to `""` and is
corrected the same way; a non-string predicate makes
`find_closest_predicate` raise (`.lower()` on a non-string), aborting the
whole parse. -/
def extractPredicato (fs : List (String × Json)) : Except Unit String :=
  match alookup "predicato_cluster" fs with
  | some (Json.str p) =>
    Except.ok (if p ∈ RELATION_TYPES then p else find_closest_predicate p)
  | none => Except.ok (find_closest_predicate "")
  | some _ => Except.error ()

/-- One iteration of the `relazioni_clusters` loop of
`parse_combined_clustering_output`: `ok none` = item silently skipped,
`ok (some c)` = cluster accepted (predicate already corrected),
`error` = the predicate field made `find_closest_predicate` raise. -/
def parseRelItem (j : Json) : Except Unit (Option RelClusterProposal) :=
  match j with
  | Json.obj fs =>
    (match alookup "membri_ids" fs with
     | some (Json.arr ids) =>
       if ids.isEmpty then Except.ok none
       else
         (match allInts ids with
          | some ints =>
            (match extractPredicato fs with
             | Except.error e => Except.error e
             | Except.ok p =>
               Except.ok (some
                 { membri_ids := ints
                   soggetto_cluster := asStr (alookup "soggetto_cluster" fs)
                   predicato_cluster := p
                   oggetto_cluster := asStr (alookup "oggetto_cluster" fs)
                   motivazione := asStr (alookup "motivazione" fs) }))
          | none => Except.ok none)
     | _ => Except.ok none)
  | _ => Except.ok none

/-- The `relazioni_clusters` loop of `parse_combined_clustering_output`. -/
def parseRelClusterItems : List Json → Except Unit (List RelClusterProposal)
  | [] => Except.ok []
  | j :: rest =>
    match parseRelItem j with
    | Except.error e => Except.error e
    | Except.ok none => parseRelClusterItems rest
    | Except.ok (some c) =>
      match parseRelClusterItems rest with
      | Except.error e => Except.error e
      | Except.ok tl => Except.ok (c :: tl)

/-- `parse_combined_clustering_output`, over the already-decoded JSON
(`decoded = none` models a `json.JSONDecodeError`, which the function
re-raises; a decoded non-dict raises `AttributeError` on `.get`). -/
def parseCombinedClusteringOutput (decoded : Option Json) :
    Except Unit (List EntityClusterProposal × List RelClusterProposal) :=
  match decoded with
  | none => Except.error ()
  | some (Json.obj fs) =>
    match jIter ((alookup "entita_clusters" fs).getD (Json.arr [])) with
    | Except.error e => Except.error e
    | Except.ok entItems =>
      match jIter ((alookup "relazioni_clusters" fs).getD (Json.arr [])) with
      | Except.error e => Except.error e
      | Except.ok relItems =>
        match parseRelClusterItems relItems with
        | Except.error e => Except.error e
        | Except.ok rcs => Except.ok (entItems.filterMap parseEntityClusterItem, rcs)
  | some _ => Except.error ()

/-- The singleton entity cluster built by the fallback branches of
`process_combined_batch`. -/
def fallbackEntityCluster (motiv : String) (e : EntityForClustering) :
    EntityClusterProposal :=
  { membri_ids := [e.id], nome_cluster := some e.nome_principale,
    tipo_cluster := some e.tipo_principale, motivazione := some motiv }

/-- The singleton relation cluster built by the fallback branches of
`process_combined_batch` (note: the predicate is the *lowercased*
aggregated predicate, uncorrected). -/
def fallbackRelCluster (motiv : String) (r : RelationForClustering) :
    RelClusterProposal :=
  { membri_ids := [r.id], soggetto_cluster := some r.soggetto,
    predicato_cluster := r.predicato, oggetto_cluster := some r.oggetto,
    motivazione := some motiv }

/-- `process_combined_batch`: empty model output (falsy string) or a
parse exception degrade to one singleton cluster per input record.
`decoded` abstracts `json.loads` on the fence-stripped output. -/
def processCombinedBatch (entity_batch : List EntityForClustering)
    (relation_batch : List RelationForClustering)
    (llmOutput : String) (decoded : Option Json) :
    List EntityClusterProposal × List RelClusterProposal :=
  if llmOutput = "" then
    (entity_batch.map (fallbackEntityCluster "Fallback: nessun clustering LLM"),
     relation_batch.map (fallbackRelCluster "Fallback: nessun clustering LLM"))
  else
    match parseCombinedClusteringOutput decoded with
    | Except.ok r => r
    | Except.error _ =>
      (entity_batch.map (fallbackEntityCluster "Fallback: errore parsing"),
       relation_batch.map (fallbackRelCluster "Fallback: errore parsing"))

/-- A finalized entity cluster (output record of
`finalize_entity_clusters`). -/
structure FinalEntityCluster where
  nome_entita_cluster : String
  tipo_entita_cluster : String
  membri_cluster : List String
  tipi_membri_cluster : List String
  descrizioni_aggregate : List String
  fonti_aggregate_chunk_id : List String
  fonti_aggregate_pagina : List Int
  fonti_aggregate_sezione : List String
  conteggio_occorrenze_totale : Nat
  motivazione_clustering : String
  membri_ids_originali : List Int
  deriving DecidableEq, Repr

/-- Accumulator of `combine_cluster_data`. -/
structure ClusterAccum where
  all_names : List String
  all_types : List String
  all_descriptions : List String
  all_chunk_ids : List String
  all_page_nums : List Int
  all_sections : List String
  total_occurrences : Nat
  deriving DecidableEq, Repr

/-- One member id's contribution in `combine_cluster_data`: ids in
`[0, len)` contribute the entity's data, ids `≥ len` are skipped by the
source's bound check.  (A *negative* id would make Python index from the
end of the list or raise; no theorem below depends on that case and the
partition hypothesis of C2 excludes it.) -/
def clusterAccumStep (orig : List AggregatedEntity) (acc : ClusterAccum)
    (id : Int) : ClusterAccum :=
  if h : 0 ≤ id ∧ id.toNat < orig.length then
    let entity := orig.get ⟨id.toNat, h.2⟩
    { all_names := acc.all_names ++ entity.tutti_nomi_originali
      all_types := acc.all_types ++ entity.tutti_tipi_rilevati
      all_descriptions := acc.all_descriptions ++ entity.descrizioni_aggregate
      all_chunk_ids := acc.all_chunk_ids ++ entity.fonti_chunk_id
      all_page_nums := acc.all_page_nums ++ entity.fonti_pagina
      all_sections := acc.all_sections ++ entity.fonti_sezione
      total_occurrences := acc.total_occurrences + entity.conteggio_occorrenze }
  else acc

/-- `combine_cluster_data` (improved-structure branch; `filter(None, ·)`
drops empty strings — and page number `0`). -/
def combineClusterData (cluster : EntityClusterProposal)
    (orig : List AggregatedEntity) : FinalEntityCluster :=
  let acc := cluster.membri_ids.foldl (clusterAccumStep orig)
    ⟨[], [], [], [], [], [], 0⟩
  { nome_entita_cluster := cluster.nome_cluster.getD "Entità_Sconosciuta"
    tipo_entita_cluster := cluster.tipo_cluster.getD "TipoSconosciuto"
    membri_cluster := pySortedDedup (acc.all_names.filter (fun s => s ≠ ""))
    tipi_membri_cluster := pySortedDedup (acc.all_types.filter (fun s => s ≠ ""))
    descrizioni_aggregate :=
      pySortedDedup (acc.all_descriptions.filter (fun s => s ≠ ""))
    fonti_aggregate_chunk_id :=
      pySortedDedup (acc.all_chunk_ids.filter (fun s => s ≠ ""))
    fonti_aggregate_pagina :=
      pySort (fun a b => decide (a ≤ b))
        (firstOccs (acc.all_page_nums.filter (fun p => p ≠ 0)))
    fonti_aggregate_sezione :=
      pySortedDedup (acc.all_sections.filter (fun s => s ≠ ""))
    conteggio_occorrenze_totale := acc.total_occurrences
    motivazione_clustering := cluster.motivazione.getD ""
    membri_ids_originali := cluster.membri_ids }

/-- `create_single_entity_cluster` (improved-structure branch). -/
def createSingleEntityCluster (entity : AggregatedEntity) (entity_id : Int) :
    FinalEntityCluster :=
  { nome_entita_cluster := entity.nome_entita_canonico_provvisorio
    tipo_entita_cluster := entity.tipo_entita_canonico_provvisorio
    membri_cluster := entity.tutti_nomi_originali
    tipi_membri_cluster := entity.tutti_tipi_rilevati
    descrizioni_aggregate := entity.descrizioni_aggregate
    fonti_aggregate_chunk_id := entity.fonti_chunk_id
    fonti_aggregate_pagina := entity.fonti_pagina
    fonti_aggregate_sezione := entity.fonti_sezione
    conteggio_occorrenze_totale := entity.conteggio_occorrenze
    motivazione_clustering := "Entità singola, nessun raggruppamento necessario"
    membri_ids_originali := [entity_id] }

/-- One iteration of the cluster loop of `finalize_entity_clusters`: the
state is `(final_entities, processed_ids)`; a cluster containing *any*
already-processed id is skipped whole. -/
def finClusterStep (original_entities : List AggregatedEntity)
    (st : List FinalEntityCluster × List Int) (c : EntityClusterProposal) :
    List FinalEntityCluster × List Int :=
  if c.membri_ids.any (fun id => decide (id ∈ st.2)) then st
  else (st.1 ++ [combineClusterData c original_entities], st.2 ++ c.membri_ids)

/-- `finalize_entity_clusters`: first-writer-wins over proposed clusters
(a later cluster sharing *any* already-claimed id is dropped whole), then
one singleton per unclaimed original entity index. -/
def finalizeEntityClusters (all_entity_clusters : List EntityClusterProposal)
    (original_entities : List AggregatedEntity) : List FinalEntityCluster :=
  let fp := all_entity_clusters.foldl (finClusterStep original_entities) ([], [])
  fp.1 ++ original_entities.enum.filterMap (fun ie =>
    if (ie.1 : Int) ∈ fp.2 then none
    else some (createSingleEntityCluster ie.2 (ie.1 : Int)))

/-- A finalized relation cluster. -/
structure FinalRelationCluster where
  soggetto_cluster : String
  predicato_cluster : String
  oggetto_cluster : String
  contesti_aggregati : List String
  fonti_aggregate_chunk_id : List String
  fonti_aggregate_pagina : List Int
  fonti_aggregate_sezione : List String
  predicati_originali_cluster : List String
  conteggio_occorrenze_totale : Nat
  motivazione_clustering : String
  membri_ids_originali : List Int
  deriving DecidableEq, Repr

/-- `create_single_relation_cluster`: the singleton built in
`finalize_relation_clusters` for an unclaimed relation; its predicate is
the (lowercased) `predicato_norm` of the aggregated relation, taken as-is. -/
def create_single_relation_cluster (relation : AggregatedRelation)
    (relation_id : Int) (s_mapped o_mapped : String) : FinalRelationCluster :=
  { soggetto_cluster := s_mapped
    predicato_cluster := relation.predicato_norm
    oggetto_cluster := o_mapped
    contesti_aggregati := relation.contesti
    fonti_aggregate_chunk_id := relation.fonti_chunk_id
    fonti_aggregate_pagina := relation.fonti_pagina
    fonti_aggregate_sezione := relation.fonti_sezione
    predicati_originali_cluster := [relation.predicato_norm]
    conteggio_occorrenze_totale := relation.conteggio_occorrenze
    motivazione_clustering := "Relazione singola, nessun raggruppamento necessario"
    membri_ids_originali := [relation_id] }

/-! ## `create_KG_in_neo4j.py` — the Graph Loader (clustered data)

The graph store is modelled directly: nodes are an insertion-ordered
association list keyed by the `name` property (the uniqueness constraint
of `setup_constraints` plus `MERGE` semantics guarantee one node per
name), edges a list of `(subject name, object name, properties)`.
`MERGE ... ON CREATE SET ... ON MATCH SET ...` with identical property
lists is an upsert that overwrites; `CREATE` appends an edge
unconditionally.  Batching (`UNWIND` over slices of 1000/500 rows)
processes rows sequentially and is semantically invisible. -/

/-- Node properties set by `upload_entities`. -/
structure NodeProps where
  type : String
  descriptions : List String
  occurrence_count : Nat
  original_members : List String
  source_chunk_ids : List String
  deriving DecidableEq, Repr

/-- Edge properties set by `upload_relations`.  (`source_chunk_ids` is
always `[]`: the Cypher reads `rel_data.fonti_chunk_id`, a key that does
not exist on clustered relation records — `COALESCE` turns it into `[]`.) -/
structure EdgeProps where
  type : String
  contexts : List String
  occurrence_count : Nat
  original_predicates : List String
  source_chunk_ids : List String
  deriving DecidableEq, Repr

/-- The graph store state. -/
structure Graph where
  nodes : List (String × NodeProps)
  edges : List (String × String × EdgeProps)
  deriving DecidableEq, Repr

def emptyGraph : Graph := { nodes := [], edges := [] }

def nodeCount (g : Graph) : Nat := g.nodes.length

def edgeCount (g : Graph) : Nat := g.edges.length

/-- `upload_entities` keeps records whose `nome_entita_cluster` strips
to a truthy string. -/
def entityRecValid (e : FinalEntityCluster) : Bool :=
  pyStrip e.nome_entita_cluster ≠ ""

/-- The node properties written for one clustered entity record (the
same values on `ON CREATE` and `ON MATCH`). -/
def nodePropsOf (e : FinalEntityCluster) : NodeProps :=
  { type := e.tipo_entita_cluster
    descriptions := e.descrizioni_aggregate
    occurrence_count := e.conteggio_occorrenze_totale
    original_members := e.membri_cluster
    source_chunk_ids := e.fonti_aggregate_chunk_id }

/-- One `MERGE` row of the `upload_entities` query. -/
def mergeEntityRow (m : List (String × NodeProps)) (e : FinalEntityCluster) :
    List (String × NodeProps) :=
  let name := e.nome_entita_cluster
  if (alookup name m).isSome then aupdate name (nodePropsOf e) m
  else m ++ [(name, nodePropsOf e)]

/-- `Neo4jUploader.upload_entities`. -/
def upload_entities (g : Graph) (entities : List FinalEntityCluster) : Graph :=
  { nodes := (entities.filter entityRecValid).foldl mergeEntityRow g.nodes
    edges := g.edges }

/-- `upload_relations` keeps records whose subject, predicate and object
all strip to truthy strings (the Cypher `WHERE` re-check is subsumed). -/
def relationRecValid (r : FinalRelationCluster) : Bool :=
  pyStrip r.soggetto_cluster ≠ "" && pyStrip r.predicato_cluster ≠ "" &&
    pyStrip r.oggetto_cluster ≠ ""

/-- The edge properties written for one clustered relation record. -/
def edgePropsOf (r : FinalRelationCluster) : EdgeProps :=
  { type := r.predicato_cluster
    contexts := r.contesti_aggregati
    occurrence_count := r.conteggio_occorrenze_totale
    original_predicates := r.predicati_originali_cluster
    source_chunk_ids := [] }

/-- One `UNWIND` row of the `upload_relations` query: `MATCH` both
endpoints by exact name, then `CREATE` (never merge) an edge; a row with
a missing endpoint is silently skipped. -/
def relEdgeStep (nodes : List (String × NodeProps))
    (acc : List (String × String × EdgeProps)) (r : FinalRelationCluster) :
    List (String × String × EdgeProps) :=
  if (alookup r.soggetto_cluster nodes).isSome ∧
     (alookup r.oggetto_cluster nodes).isSome then
    acc ++ [(r.soggetto_cluster, r.oggetto_cluster, edgePropsOf r)]
  else acc

/-- `Neo4jUploader.upload_relations`.  Node set is unchanged. -/
def upload_relations (g : Graph) (relations : List FinalRelationCluster) :
    Graph :=
  { nodes := g.nodes
    edges := (relations.filter relationRecValid).foldl (relEdgeStep g.nodes)
      g.edges }

/-- One full load of a clustered dataset: `upload_entities` then
`upload_relations`, as in the `__main__` driver. -/
def loadClustered (entities : List FinalEntityCluster)
    (relations : List FinalRelationCluster) (g : Graph) : Graph :=
  upload_relations (upload_entities g entities) relations

/-! ## `knowledge_retriever.py` — the Retrieval Engine

Externals (`analyze_user_question`, the Neo4j driver, the SQLite chunk
store, `_format_context_from_results`' traversal of driver records) are
abstracted into a `RetrievalEnv`; `retrieve_knowledge` returns its output
dict together with the trace of graph queries and chunk lookups it
executed. -/

/-- A query-analysis dict.  `entita_chiave = none` models a dict missing
that key. -/
structure AnalysisDict where
  intento : Option String
  entita_chiave : Option (List KeyEntityDict)
  deriving DecidableEq, Repr

/-- A Python value handed to `retrieve_knowledge` that is not a string:
either a dict (of the shape above) or any non-dict value. -/
inductive AnalysisValue where
  | dict (d : AnalysisDict)
  | nondict
  deriving DecidableEq, Repr

/-- The `analysis` argument of `retrieve_knowledge`. -/
inductive RetrieverInput where
  | ofString (s : String)
  | ofValue (v : AnalysisValue)
  deriving DecidableEq, Repr

/-- A graph query executed through `_run_cypher_query`: the primary query
built by `_generate_cypher_from_analysis`, or the widened fallback query
(which is determined by the single token it matches node names against). -/
inductive GraphQuery where
  | primary (cypher : String)
  | fallback (token : String)
  deriving DecidableEq, Repr

/-- An observable side effect of `retrieve_knowledge`. -/
inductive RetrievalEvent where
  | query (q : GraphQuery)
  | chunkLookup (chunk_id : String)
  deriving DecidableEq, Repr

/-- A chunk record returned by `_get_chunk_by_id`. -/
structure ChunkRec where
  chunk_id : String
  text : String
  source_file : String
  page_number : Int
  section_title : String
  deriving DecidableEq, Repr

/-- The external collaborators of the retriever.  `availableRels` is the
cached result of `_get_available_relationships`; `formatResults`
abstracts `_format_context_from_results` (a pure formatting step over
driver records, returning the graph context and the referenced chunk
ids); `runQuery` rows are abstracted to strings. -/
structure RetrievalEnv where
  analyze : String → AnalysisValue
  runQuery : GraphQuery → List String
  availableRels : List String
  formatResults : List String → String × List String
  getChunk : String → Option ChunkRec

/-- Truthiness of `analysis.get("intento")`. -/
def truthyOpt (o : Option String) : Bool :=
  match o with
  | none => false
  | some s => s ≠ ""

/-- The keyword list used to pick procedural relationship types for
`find_procedure` queries. -/
def PROC_KEYWORDS : List String :=
  ["passo", "azione", "procedura", "richiede", "applica", "campo",
   "vincola", "parte", "descritto"]

/-- The `n.name = "p" / n.name CONTAINS "p"` condition pair per pattern. -/
def searchConditions (unique_patterns : List String) : List String :=
  unique_patterns.foldl
    (fun acc p =>
      acc ++ ["n.name = \"" ++ p ++ "\"", "n.name CONTAINS \"" ++ p ++ "\""])
    []

/-- `KnowledgeRetriever._generate_cypher_from_analysis`: empty string when
intent or key entities are missing/empty or no entity survives
normalization; otherwise an intent-dependent Cypher query over the
deduplicated search patterns. -/
def generateCypherFromAnalysis (availableRels : List String)
    (d : AnalysisDict) : String :=
  let entita := d.entita_chiave.getD []
  if ¬ truthyOpt d.intento ∨ entita.isEmpty then ""
  else
    let normalized := normalize_entity_list entita
    if normalized.isEmpty then ""
    else
      let all_patterns :=
        (normalized.map (fun e => create_search_patterns e.nome_originale)).flatten
      let unique_patterns := firstOccs all_patterns
      let search_condition :=
        String.intercalate " OR " (searchConditions unique_patterns)
      if d.intento = some "find_procedure" then
        let proc_rels := availableRels.filter
          (fun r => PROC_KEYWORDS.any (fun x => pyIn x (pyLower r)))
        if ¬ proc_rels.isEmpty then
          let rel_pattern := String.intercalate "|" (proc_rels.take 8)
          "\n                MATCH (n) WHERE " ++ search_condition ++
            "\n                OPTIONAL MATCH p1=(n)-[:" ++ rel_pattern ++
            "*1..2]->(connected)\n                OPTIONAL MATCH p2=(n)<-[:" ++
            rel_pattern ++ "*1..2]-(source)\n                RETURN n, p1, p2 LIMIT 20\n                "
        else
          "\n                MATCH (n) WHERE " ++ search_condition ++
            "\n                OPTIONAL MATCH p=(n)-[r]-(connected)\n                RETURN n, p LIMIT 20\n                "
      else
        "\n            MATCH (n) WHERE " ++ search_condition ++
          "\n            OPTIONAL MATCH p=(n)-[r]-(connected)\n            RETURN n, p LIMIT 20\n            "

/-- The token the fallback query matches against node names: the first
whitespace token of the lowercased name of the first key entity (the
whole name if it has no tokens). -/
def fallbackToken (entita_chiave : List KeyEntityDict) : String :=
  let entity_name := pyLower ((entita_chiave.headD ⟨"", ""⟩).nome)
  match pyWords entity_name with
  | [] => entity_name
  | w :: _ => w

/-- The output dict of `retrieve_knowledge`. -/
structure RetrieveOutput where
  graph_context : String
  text_context : String
  deriving DecidableEq, Repr

/-- The fixed error output for invalid input. -/
def invalidInputOutput : RetrieveOutput :=
  { graph_context := "Errore: formato di input non valido", text_context := "" }

/-- The text block built for one retrieved chunk. -/
def chunkTextBlock (c : ChunkRec) : String :=
  "Fonte: " ++ c.source_file ++ " - Pagina " ++ toString c.page_number ++
    " - Sezione \x27" ++ c.section_title ++ "\x27\n" ++
    "```\n" ++ c.text ++ "\n```\n\n"

/-- `KnowledgeRetriever.retrieve_knowledge`, returning the output dict
and the ordered trace of graph queries and chunk lookups executed. -/
def retrieveKnowledge (env : RetrievalEnv) (input : RetrieverInput)
    (retrieve_text : Bool) : RetrieveOutput × List RetrievalEvent :=
  let analysis := match input with
    | RetrieverInput.ofString s => env.analyze s
    | RetrieverInput.ofValue v => v
  match analysis with
  | AnalysisValue.nondict => (invalidInputOutput, [])
  | AnalysisValue.dict d =>
    match d.entita_chiave with
    | none => (invalidInputOutput, [])
    | some ec =>
      let cypher := generateCypherFromAnalysis env.availableRels d
      let pr : List String × List RetrievalEvent :=
        if cypher ≠ "" then
          (env.runQuery (GraphQuery.primary cypher),
           [RetrievalEvent.query (GraphQuery.primary cypher)])
        else ([], [])
      let fr : List String × List RetrievalEvent :=
        if pr.1.isEmpty ∧ ¬ ec.isEmpty then
          (env.runQuery (GraphQuery.fallback (fallbackToken ec)),
           [RetrievalEvent.query (GraphQuery.fallback (fallbackToken ec))])
        else (pr.1, [])
      let fmt := env.formatResults fr.1
      let tx : String × List RetrievalEvent :=
        if retrieve_text ∧ ¬ fmt.2.isEmpty then
          let relevant := (fmt.2.map env.getChunk).filterMap id
          let sorted := pySort (fun a b =>
            decide (a.page_number < b.page_number ∨
              (a.page_number = b.page_number ∧ a.chunk_id ≤ b.chunk_id))) relevant
          ("\n\n--- Testo Originale dalle Guide per Contesto Aggiuntivo ---\n\n"
             ++ String.join (sorted.map chunkTextBlock),
           fmt.2.map RetrievalEvent.chunkLookup)
        else ("", [])
      ({ graph_context := fmt.1, text_context := pyStrip tx.1 },
       pr.2 ++ fr.2 ++ tx.2)

/-- The last entity row with cluster name `k`: under repeated
`MERGE ... ON CREATE SET / ON MATCH SET` its property values are the ones
that persist. -/
def lastMatch (k : String) :
    List FinalEntityCluster → Option FinalEntityCluster
  | [] => none
  | e :: rest =>
    match lastMatch k rest with
    | some x => some x
    | none => if e.nome_entita_cluster = k then some e else none

/-- The mentions of `es` that contribute to the aggregation bucket with
key `k` (valid, and keyed to `k`). -/
def contributingMentions (es : List RawEntity) (k : String) : List RawEntity :=
  es.filter (fun e => entValid e && decide (entKey e = k))

/-- The asserted types of the mentions contributing to the bucket with
key `k`, in input order — the list whose majority element (first-seen on
ties) becomes the canonical type. -/
def contributingTypes (es : List RawEntity) (k : String) : List String :=
  (contributingMentions es k).map (fun e => e.tipo_entita)

/-- The row list produced by the primary-query phase of
`retrieve_knowledge`: the rows of the generated Cypher query, or `[]`
when no query could be generated. -/
def primaryRows (env : RetrievalEnv) (d : AnalysisDict) : List String :=
  let cypher := generateCypherFromAnalysis env.availableRels d
  if cypher ≠ "" then env.runQuery (GraphQuery.primary cypher) else []

/-- Recognizer for fallback-query events in a retrieval trace. -/
def isFallbackEvent : RetrievalEvent → Bool
  | RetrievalEvent.query (GraphQuery.fallback _) => true
  | _ => false

/-! ### Concrete sample data (used by witnesses and counterexamples) -/

/-- A raw mention whose plain-lowercase aggregation key differs from the
Entity Normalizer's canonical form. -/
def regMention : RawEntity :=
  { nome_entita := "Registrazione", tipo_entita := "FunzionalitàPiattaforma",
    descrizione_entita := none, source_chunk_id := none,
    source_page_number := none, source_section_title := none }

/-- The two case-variant mentions of the spec's aggregation scenario. -/
def scenarioMention1 : RawEntity :=
  { nome_entita := "Registrazione Utente PA",
    tipo_entita := "FunzionalitàPiattaforma",
    descrizione_entita := none, source_chunk_id := some "c1",
    source_page_number := some 1, source_section_title := none }

def scenarioMention2 : RawEntity :=
  { nome_entita := "registrazione utente pa",
    tipo_entita := "PiattaformaModulo",
    descrizione_entita := none, source_chunk_id := some "c2",
    source_page_number := some 2, source_section_title := none }

/-- A raw relation whose predicate is a mixed-case vocabulary predicate;
aggregation lowercases it out of the vocabulary. -/
def rawPassoRel : RawRelation :=
  { soggetto := "A", predicato := "haPassoSuccessivo", oggetto := "B",
    contesto_relazione := none, source_chunk_id := none,
    source_page_number := none, source_section_title := none }

/-- An empty aggregated entity, for counterexample inputs. -/
def blankAggEntity : AggregatedEntity :=
  { nome_entita_canonico_provvisorio := "x", nome_entita_norm := "x",
    tipo_entita_canonico_provvisorio := "PiattaformaModulo",
    tutti_nomi_originali := ["x"], tutti_tipi_rilevati := ["PiattaformaModulo"],
    descrizioni_aggregate := [], fonti_chunk_id := [], fonti_pagina := [],
    fonti_sezione := [], conteggio_occorrenze := 1 }

/-- A cluster proposal whose only member id (5) is not an id of the
one-element input list. -/
def outOfRangeProposal : EntityClusterProposal :=
  { membri_ids := [5], nome_cluster := some "X", tipo_cluster := some "T",
    motivazione := some "m" }

/-- Two clustered entities and one clustered relation between them: the
minimal dataset on which a double load doubles the edge count. -/
def sampleClusteredEntityA : FinalEntityCluster :=
  { nome_entita_cluster := "a", tipo_entita_cluster := "PiattaformaModulo",
    membri_cluster := ["a"], tipi_membri_cluster := ["PiattaformaModulo"],
    descrizioni_aggregate := [], fonti_aggregate_chunk_id := [],
    fonti_aggregate_pagina := [], fonti_aggregate_sezione := [],
    conteggio_occorrenze_totale := 1, motivazione_clustering := "",
    membri_ids_originali := [0] }

def sampleClusteredEntityB : FinalEntityCluster :=
  { nome_entita_cluster := "b", tipo_entita_cluster := "PiattaformaModulo",
    membri_cluster := ["b"], tipi_membri_cluster := ["PiattaformaModulo"],
    descrizioni_aggregate := [], fonti_aggregate_chunk_id := [],
    fonti_aggregate_pagina := [], fonti_aggregate_sezione := [],
    conteggio_occorrenze_totale := 1, motivazione_clustering := "",
    membri_ids_originali := [1] }

def sampleClusteredRelationAB : FinalRelationCluster :=
  { soggetto_cluster := "a", predicato_cluster := "riguarda",
    oggetto_cluster := "b", contesti_aggregati := [],
    fonti_aggregate_chunk_id := [], fonti_aggregate_pagina := [],
    fonti_aggregate_sezione := [], predicati_originali_cluster := ["riguarda"],
    conteggio_occorrenze_totale := 1, motivazione_clustering := "",
    membri_ids_originali := [0] }

/-- A sample clustering-input entity and relation, for witnesses. -/
def sampleEFC : EntityForClustering :=
  { id := 0, nome_principale := "Registrazione Utente PA",
    tipo_principale := "FunzionalitàPiattaforma", tutti_nomi := ["Registrazione Utente PA"],
    tutti_tipi := ["FunzionalitàPiattaforma"], descrizioni := [], occorrenze := 2 }

def sampleRFC : RelationForClustering :=
  { id := 0, soggetto := "a", predicato := "hapassosuccessivo",
    oggetto := "b", contesti := [], occorrenze := 1 }

/-- A well-formed cluster proposal claiming exactly the one input id. -/
def validSingletonProposal : EntityClusterProposal :=
  { membri_ids := [0], nome_cluster := some "X", tipo_cluster := some "T",
    motivazione := some "ok" }

/-- A retrieval environment whose graph store is empty and whose
collaborators return trivial values. -/
def emptyRetrievalEnv : RetrievalEnv :=
  { analyze := fun _ => AnalysisValue.nondict
    runQuery := fun _ => []
    availableRels := []
    formatResults := fun _ => ("Nessuna informazione trovata nel Knowledge Graph.", [])
    getChunk := fun _ => none }

/-- An analysis dict with one key entity and no intent (its primary query
is empty, so the primary phase yields no rows). -/
def sampleAnalysisNoIntent : AnalysisDict :=
  { intento := none, entita_chiave := some [⟨"cambiare password", "AzioneUtente"⟩] }

/-- Two final clusters are disjoint when no original id lies in both
member-id lists. -/
def entDisj (f1 f2 : FinalEntityCluster) : Prop :=
  ∀ id : Int, id ∈ f1.membri_ids_originali → id ∉ f2.membri_ids_originali

/-! ## Lemmas and theorems -/

theorem alookup_eq_none {α β : Type} [DecidableEq α] (k : α) (l : List (α × β)) :
    alookup k l = none ↔ k ∉ akeys l := by
  induction l with
  | nil => simp [alookup, akeys]
  | cons hd tl ih =>
    obtain ⟨a, b⟩ := hd
    by_cases h : a = k
    · subst h; simp [alookup, akeys]
    · have h' : ¬ (k = a) := fun hk => h hk.symm
      simp [alookup, akeys, h, h', ih]

theorem alookup_append {α β : Type} [DecidableEq α] (k : α)
    (l₁ l₂ : List (α × β)) :
    alookup k (l₁ ++ l₂) =
      match alookup k l₁ with
      | some v => some v
      | none => alookup k l₂ := by
  induction l₁ with
  | nil => simp [alookup]
  | cons hd tl ih =>
    obtain ⟨a, b⟩ := hd
    by_cases h : a = k <;> simp [alookup, h, ih]

theorem akeys_aupdate {α β : Type} [DecidableEq α] (k : α) (v : β)
    (l : List (α × β)) : akeys (aupdate k v l) = akeys l := by
  induction l with
  | nil => rfl
  | cons hd tl ih =>
    obtain ⟨a, b⟩ := hd
    simp only [akeys] at ih
    by_cases h : a = k
    · subst h; simp [aupdate, akeys, ih]
    · simp [aupdate, akeys, h, ih]

theorem alookup_aupdate_self {α β : Type} [DecidableEq α] (k : α) (v : β)
    (l : List (α × β)) (h : k ∈ akeys l) :
    alookup k (aupdate k v l) = some v := by
  induction l with
  | nil => simp [akeys] at h
  | cons hd tl ih =>
    obtain ⟨a, b⟩ := hd
    by_cases hh : a = k
    · subst hh; simp [aupdate, alookup]
    · have h' : ¬ (k = a) := fun hk => hh hk.symm
      have hmem : k ∈ akeys tl := by
        simp [akeys] at h ⊢
        rcases h with h | h
        · exact absurd h h'
        · exact h
      simp [aupdate, alookup, hh, ih hmem]

theorem alookup_aupdate_ne {α β : Type} [DecidableEq α] (k k' : α) (v : β)
    (l : List (α × β)) (h : k' ≠ k) :
    alookup k' (aupdate k v l) = alookup k' l := by
  induction l with
  | nil => rfl
  | cons hd tl ih =>
    obtain ⟨a, b⟩ := hd
    by_cases hh : a = k
    · subst hh
      have h1 : ¬ (a = k') := fun hk => h hk.symm
      simp [aupdate, alookup, h1, ih]
    · simp [aupdate, alookup, hh, ih]

theorem alookup_mem {α β : Type} [DecidableEq α] {k : α} {v : β}
    {l : List (α × β)} (h : alookup k l = some v) : (k, v) ∈ l := by
  induction l with
  | nil => cases h
  | cons hd tl ih =>
    obtain ⟨a, b⟩ := hd
    by_cases ha : a = k
    · subst ha
      simp [alookup] at h
      subst h
      exact List.mem_cons_self _ _
    · simp [alookup, ha] at h
      exact List.mem_cons_of_mem _ (ih h)

theorem alookup_isSome_iff {α β : Type} [DecidableEq α] (k : α)
    (l : List (α × β)) : (alookup k l).isSome = true ↔ k ∈ akeys l := by
  rcases h : alookup k l with _ | v
  · simpa using (alookup_eq_none k l).mp h
  · simp only [Option.isSome_some, true_iff]
    by_contra hmem
    rw [(alookup_eq_none k l).mpr hmem] at h
    cases h

theorem alookup_of_mem_nodup {α β : Type} [DecidableEq α] {k : α} {v : β}
    {l : List (α × β)} (hmem : (k, v) ∈ l) (hnd : (akeys l).Nodup) :
    alookup k l = some v := by
  induction l with
  | nil => cases hmem
  | cons hd tl ih =>
    obtain ⟨a, b⟩ := hd
    simp only [akeys, List.map_cons, List.nodup_cons] at hnd
    rcases List.mem_cons.mp hmem with h | h
    · injection h with h1 h2
      subst h1; subst h2
      simp [alookup]
    · have hak : ¬ (a = k) := by
        intro he
        subst he
        exact hnd.1 (by simpa using List.mem_map_of_mem Prod.fst h)
      simp [alookup, hak]
      exact ih h hnd.2

/-- A fold that conditionally appends single elements is `init ++`
the matching images. -/
theorem foldl_conditional_append {α β : Type} (p : α → Bool) (f : α → β)
    (l : List α) (init : List β) :
    l.foldl (fun acc r => if p r then acc ++ [f r] else acc) init =
      init ++ l.filterMap (fun r => if p r then some (f r) else none) := by
  induction l generalizing init with
  | nil => simp
  | cons x xs ih =>
    by_cases hx : p x
    · simp [hx, ih, List.append_assoc]
    · simp [hx, ih]

/-! ### C10 — invalid input short-circuits -/

/-- C10: for every input to `retrieve_knowledge` that is neither a string
nor a dictionary containing the key `"entita_chiave"`, the function
returns exactly `{"graph_context": "Errore: formato di input non
valido", "text_context": ""}` and executes no graph query or chunk
lookup (empty event trace). -/
theorem C10_invalid_input_early_error (env : RetrievalEnv) (rt : Bool)
    (input : RetrieverInput)
    (h : input = RetrieverInput.ofValue AnalysisValue.nondict ∨
      ∃ d : AnalysisDict,
        input = RetrieverInput.ofValue (AnalysisValue.dict d) ∧
          d.entita_chiave = none) :
    retrieveKnowledge env input rt =
      ({ graph_context := "Errore: formato di input non valido",
         text_context := "" }, []) := by
  rcases h with h | ⟨d, h, hd⟩
  · subst h; rfl
  · subst h
    simp [retrieveKnowledge, hd, invalidInputOutput]

/-- Witness for C10 at a concrete non-dict input. -/
theorem C10_witness :
    retrieveKnowledge emptyRetrievalEnv
      (RetrieverInput.ofValue AnalysisValue.nondict) true =
      ({ graph_context := "Errore: formato di input non valido",
         text_context := "" }, []) :=
  C10_invalid_input_early_error emptyRetrievalEnv true _ (Or.inl rfl)

/-! ### C6 — empty model output degrades to singleton clusters -/

/-- C6: when the language-model output for a clustering batch is empty,
`process_combined_batch` makes every entity of the batch its own
singleton entity cluster and every relation its own singleton relation
cluster (no record of the batch is lost). -/
theorem C6_empty_output_singletons (eb : List EntityForClustering)
    (rb : List RelationForClustering) (decoded : Option Json) :
    processCombinedBatch eb rb "" decoded =
      (eb.map (fallbackEntityCluster "Fallback: nessun clustering LLM"),
       rb.map (fallbackRelCluster "Fallback: nessun clustering LLM")) ∧
    (processCombinedBatch eb rb "" decoded).1.length = eb.length ∧
    (processCombinedBatch eb rb "" decoded).2.length = rb.length ∧
    (∀ e ∈ eb,
      (fallbackEntityCluster "Fallback: nessun clustering LLM" e).membri_ids
        = [e.id]) ∧
    (∀ r ∈ rb,
      (fallbackRelCluster "Fallback: nessun clustering LLM" r).membri_ids
        = [r.id]) := by
  refine ⟨rfl, ?_, ?_, fun e _ => rfl, fun r _ => rfl⟩ <;>
    simp [processCombinedBatch]

/-- Witness for C6 at a concrete one-entity, one-relation batch. -/
theorem C6_witness :
    processCombinedBatch [sampleEFC] [sampleRFC] "" none =
      ([fallbackEntityCluster "Fallback: nessun clustering LLM" sampleEFC],
       [fallbackRelCluster "Fallback: nessun clustering LLM" sampleRFC]) :=
  (C6_empty_output_singletons [sampleEFC] [sampleRFC] none).1

/-! ### C4 — the normalizer is *not* idempotent in general -/

/-- Stop-word removal can create a fresh synonym-table hit: `"em la
pulia"` normalizes to `"em pulia"`, which normalizes further to
`"empulia"`.  This refutes `normalize ∘ normalize = normalize` as a
universal law. -/
theorem C4_counterexample :
    normalize_entity_name (normalize_entity_name "em la pulia") ≠
      normalize_entity_name "em la pulia" ∧
    normalize_entity_name "em la pulia" = "em pulia" ∧
    normalize_entity_name "em pulia" = "empulia" := by decide

theorem findMapMatch_empty : findMapMatch "" = none := by decide

theorem findMapMatch_mem_values {n v : String}
    (h : findMapMatch n = some v) :
    v ∈ NORMALIZATION_MAP.map Prod.snd := by
  unfold findMapMatch at h
  rcases ha : alookup n NORMALIZATION_MAP with _ | w
  · rw [ha] at h
    rcases hf : NORMALIZATION_MAP.find? (fun kv => pyIn kv.1 n) with _ | kv
    · rw [hf] at h; cases h
    · rw [hf] at h
      simp only [Option.map_some] at h
      obtain rfl := Option.some.inj h
      exact List.mem_map_of_mem Prod.snd (List.mem_of_find?_eq_some hf)
  · rw [ha] at h
    obtain rfl := Option.some.inj h
    exact List.mem_map_of_mem Prod.snd (alookup_mem ha)

/-- Every canonical value of the synonym table is a fixed point of the
normalizer (each value is itself a key mapping to itself). -/
theorem normalize_fixed_on_values :
    ∀ v ∈ NORMALIZATION_MAP.map Prod.snd, normalize_entity_name v = v := by
  decide

/-- C4 (amended): the normalizer is idempotent on every input that
resolves through the synonym table (exact or substring match on the
cleaned input).  Idempotence fails in general — see the counterexample. -/
theorem C4_idempotent_on_synonym_hits (s v : String)
    (h : findMapMatch (cleanName s) = some v) :
    normalize_entity_name (normalize_entity_name s) =
      normalize_entity_name s := by
  have hs : ¬ (pyStrip s = "") := by
    intro hb
    have hc : cleanName s = "" := by
      simp only [cleanName, hb]
      rfl
    rw [hc, findMapMatch_empty] at h
    cases h
  have hv : normalize_entity_name s = v := by
    unfold normalize_entity_name
    rw [if_neg hs]
    simp only [h]
  calc normalize_entity_name (normalize_entity_name s)
      = normalize_entity_name v := by rw [hv]
    _ = v := normalize_fixed_on_values v (findMapMatch_mem_values h)
    _ = normalize_entity_name s := hv.symm

/-- Witness for C4 (amended) at `"reset della password"`, which hits the
synonym table by substring (`"password"`). -/
theorem C4_witness :
    findMapMatch (cleanName "reset della password") = some "password" ∧
    normalize_entity_name (normalize_entity_name "reset della password") =
      normalize_entity_name "reset della password" :=
  ⟨by decide,
   C4_idempotent_on_synonym_hits "reset della password" "password" (by decide)⟩

/-! ### Aggregation characterization (C1, C5, C9) -/

theorem akeys_append {α β : Type} (l₁ l₂ : List (α × β)) :
    akeys (l₁ ++ l₂) = akeys l₁ ++ akeys l₂ := by
  simp [akeys]

/-- Key-set effect of one aggregation step. -/
theorem akeys_aggEntStep (m : List (String × EntityBucket)) (e : RawEntity)
    (k : String) :
    k ∈ akeys (aggEntStep m e) ↔
      k ∈ akeys m ∨ (entValid e = true ∧ entKey e = k) := by
  unfold aggEntStep
  cases hv : entValid e with
  | false => simp
  | true =>
    simp only [if_true]
    rcases hm : alookup (entKey e) m with _ | b
    · simp only [akeys_append]
      constructor
      · intro h
        rcases List.mem_append.mp h with h | h
        · exact Or.inl h
        · simp [akeys] at h
          exact Or.inr ⟨trivial, h.symm⟩
      · rintro (h | ⟨-, rfl⟩)
        · exact List.mem_append.mpr (Or.inl h)
        · exact List.mem_append.mpr (Or.inr (by simp [akeys]))
    · rw [akeys_aupdate]
      constructor
      · exact Or.inl
      · rintro (h | ⟨-, rfl⟩)
        · exact h
        · exact (alookup_isSome_iff _ m).mp (by rw [hm]; rfl)

/-- The keys of the aggregation dict are exactly the keys of the valid
mentions processed so far. -/
theorem aggEnt_keys_mem (es : List RawEntity) (m : List (String × EntityBucket))
    (k : String) :
    k ∈ akeys (es.foldl aggEntStep m) ↔
      k ∈ akeys m ∨ ∃ e ∈ es, entValid e ∧ entKey e = k := by
  induction es generalizing m with
  | nil => simp
  | cons e es ih =>
    rw [List.foldl_cons, ih, akeys_aggEntStep]
    constructor
    · rintro ((h | h) | ⟨e', he', hv, hk⟩)
      · exact Or.inl h
      · exact Or.inr ⟨e, List.mem_cons_self e es, h.1, h.2⟩
      · exact Or.inr ⟨e', List.mem_cons_of_mem e he', hv, hk⟩
    · rintro (h | ⟨e', he', hv, hk⟩)
      · exact Or.inl (Or.inl h)
      · rcases List.mem_cons.mp he' with rfl | he'
        · exact Or.inl (Or.inr ⟨hv, hk⟩)
        · exact Or.inr ⟨e', he', hv, hk⟩

/-- Aggregation never duplicates a key. -/
theorem aggEnt_keys_nodup (es : List RawEntity)
    (m : List (String × EntityBucket)) (h : (akeys m).Nodup) :
    (akeys (es.foldl aggEntStep m)).Nodup := by
  induction es generalizing m with
  | nil => exact h
  | cons e es ih =>
    rw [List.foldl_cons]
    apply ih
    unfold aggEntStep
    cases hv : entValid e with
    | false => simpa using h
    | true =>
      simp only [if_true]
      rcases hm : alookup (entKey e) m with _ | b
      · rw [akeys_append]
        refine List.Nodup.append h (by simp [akeys]) ?_
        intro x hx hx'
        simp [akeys] at hx'
        subst hx'
        exact ((alookup_eq_none _ m).mp hm) hx
      · rw [akeys_aupdate]; exact h

/-- Value characterization: the bucket stored under `k` is the fold of
the bucket update over exactly the valid mentions with key `k`, in input
order. -/
theorem aggEnt_lookup (es : List RawEntity) (m : List (String × EntityBucket))
    (k : String) :
    alookup k (es.foldl aggEntStep m) =
      match alookup k m,
        es.filter (fun e => entValid e && decide (entKey e = k)) with
      | some b, l => some (l.foldl updEntityBucket b)
      | none, [] => none
      | none, e :: tl => some (tl.foldl updEntityBucket (initEntityBucket e)) := by
  induction es generalizing m with
  | nil => rcases h : alookup k m with _ | b <;> simp [h]
  | cons e es ih =>
    rw [List.foldl_cons, ih (aggEntStep m e)]
    cases hv : entValid e with
    | false =>
      have hstep : aggEntStep m e = m := by simp [aggEntStep, hv]
      rw [hstep]
      simp [List.filter_cons, hv]
    | true =>
      by_cases hk : entKey e = k
      · rcases hm : alookup k m with _ | b
        · have hm' : alookup (entKey e) m = none := by rw [hk]; exact hm
          have hstep :
              aggEntStep m e = m ++ [(entKey e, initEntityBucket e)] := by
            simp [aggEntStep, hv, hm']
          have hlk :
              alookup k (m ++ [(entKey e, initEntityBucket e)]) =
                some (initEntityBucket e) := by
            rw [alookup_append, hm]
            simp [alookup, hk]
          rw [hstep, hlk]
          simp [List.filter_cons, hv, hk, hm]
        · have hm' : alookup (entKey e) m = some b := by rw [hk]; exact hm
          have hstep :
              aggEntStep m e = aupdate (entKey e) (updEntityBucket b e) m := by
            simp [aggEntStep, hv, hm']
          have hmem : k ∈ akeys m :=
            (alookup_isSome_iff k m).mp (by rw [hm]; rfl)
          have hlk : alookup k (aupdate (entKey e) (updEntityBucket b e) m) =
              some (updEntityBucket b e) := by
            rw [hk]
            exact alookup_aupdate_self k _ m hmem
          rw [hstep, hlk]
          simp [List.filter_cons, hv, hk, hm]
      · have hlk : alookup k (aggEntStep m e) = alookup k m := by
          unfold aggEntStep
          rw [hv]
          simp only [if_true]
          rcases hm' : alookup (entKey e) m with _ | b
          · rw [alookup_append]
            rcases hmm : alookup k m with _ | c <;> simp [alookup, hk, hmm]
          · exact alookup_aupdate_ne _ _ _ _ (fun he => hk he.symm)
        rw [hlk]
        simp [List.filter_cons, hv, hk]

/-- Occurrence count accumulates one per update. -/
theorem foldl_upd_conteggio (l : List RawEntity) (b : EntityBucket) :
    (l.foldl updEntityBucket b).conteggio_occorrenze =
      b.conteggio_occorrenze + l.length := by
  induction l generalizing b with
  | nil => simp
  | cons e es ih =>
    rw [List.foldl_cons, ih]
    simp [updEntityBucket]
    omega

/-- The collected type list is the types of the folded mentions, in
order. -/
theorem foldl_upd_tipi (l : List RawEntity) (b : EntityBucket) :
    (l.foldl updEntityBucket b).tipi_rilevati =
      b.tipi_rilevati ++ l.map (fun e => e.tipo_entita) := by
  induction l generalizing b with
  | nil => simp
  | cons e es ih =>
    rw [List.foldl_cons, ih]
    simp [updEntityBucket]

/-- The normalized-name column of the aggregation output is exactly the
key list of the bucket dict. -/
theorem aggOut_norm_eq_akeys (es : List RawEntity) :
    (aggregateEntitiesImproved es).map (fun a => a.nome_entita_norm) =
      akeys (aggEntBuckets es) := by
  unfold aggregateEntitiesImproved akeys
  rw [List.map_map]
  rfl

/-- C1: aggregation produces exactly one record per distinct normalized
name — the normalized-name column has no duplicates and contains exactly
the keys of the valid input mentions — and each record's occurrence count
equals the number of mentions that contributed to its bucket. -/
theorem C1_one_record_per_normalized_name (es : List RawEntity) :
    ((aggregateEntitiesImproved es).map (fun a => a.nome_entita_norm)).Nodup ∧
    (∀ k : String,
      k ∈ (aggregateEntitiesImproved es).map (fun a => a.nome_entita_norm) ↔
        ∃ e ∈ es, entValid e ∧ entKey e = k) ∧
    (∀ a ∈ aggregateEntitiesImproved es,
      a.conteggio_occorrenze =
        (contributingMentions es a.nome_entita_norm).length) := by
  refine ⟨?_, ?_, ?_⟩
  · rw [aggOut_norm_eq_akeys]
    exact aggEnt_keys_nodup es [] (by simp [akeys])
  · intro k
    rw [aggOut_norm_eq_akeys]
    unfold aggEntBuckets
    rw [aggEnt_keys_mem es [] k]
    simp [akeys]
  · intro a ha
    obtain ⟨kb, hkb, rfl⟩ := List.mem_map.mp ha
    have hnd : (akeys (aggEntBuckets es)).Nodup :=
      aggEnt_keys_nodup es [] (by simp [akeys])
    have hlk : alookup kb.1 (aggEntBuckets es) = some kb.2 := by
      obtain ⟨k, b⟩ := kb
      exact alookup_of_mem_nodup hkb hnd
    unfold aggEntBuckets at hlk
    rw [aggEnt_lookup es [] kb.1] at hlk
    simp only [alookup] at hlk
    rcases hf : es.filter (fun e => entValid e && decide (entKey e = kb.1)) with
      _ | ⟨e, tl⟩
    · rw [hf] at hlk; cases hlk
    · rw [hf] at hlk
      have hb : kb.2 = tl.foldl updEntityBucket (initEntityBucket e) :=
        (Option.some.inj hlk).symm
      show kb.2.conteggio_occorrenze = _
      rw [hb, foldl_upd_conteggio]
      have hlen : (contributingMentions es kb.1).length = (e :: tl).length := by
        rw [contributingMentions, hf]
      have hnorm : (finalizeEntityBucket kb).nome_entita_norm = kb.1 := rfl
      rw [hnorm, hlen]
      simp [initEntityBucket]
      omega

/-- Witness for C1 at the spec's two case-variant mentions: one output
record, occurrence count from the contributing-mention count. -/
theorem C1_witness :
    (aggregateEntitiesImproved [scenarioMention1, scenarioMention2]).length = 1 ∧
    ∀ a ∈ aggregateEntitiesImproved [scenarioMention1, scenarioMention2],
      a.conteggio_occorrenze =
        (contributingMentions [scenarioMention1, scenarioMention2]
          a.nome_entita_norm).length :=
  ⟨by decide,
   (C1_one_record_per_normalized_name [scenarioMention1, scenarioMention2]).2.2⟩

/-! ### C5 — aggregation does *not* use the shared normalizer -/

/-- The bucket key used by `aggregate_knowledge_improved` for the mention
`"Registrazione"` is the plain lowercased name `"registrazione"`, while
the Entity Normalizer used by retrieval maps the same name to
`"iscrizione"`: the two identity-resolution keys differ. -/
theorem C5_counterexample :
    (aggregateEntitiesImproved [regMention]).map (fun a => a.nome_entita_norm)
        = ["registrazione"] ∧
    normalize_entity_name "Registrazione" = "iscrizione" ∧
    ("registrazione" : String) ≠ "iscrizione" := by decide

/-- C5 (amended): every aggregation bucket key is the plain
`lower(strip(name))` of a contributing mention — not the Entity
Normalizer's canonical form, from which it differs on some names. -/
theorem C5_bucket_key_is_plain_lowercase :
    (∀ (es : List RawEntity), ∀ a ∈ aggregateEntitiesImproved es,
      ∃ e ∈ es, entValid e ∧
        a.nome_entita_norm = pyLower (pyStrip e.nome_entita)) ∧
    ∃ name : String, pyLower (pyStrip name) ≠ normalize_entity_name name := by
  constructor
  · intro es a ha
    have hk : a.nome_entita_norm ∈
        (aggregateEntitiesImproved es).map (fun a => a.nome_entita_norm) :=
      List.mem_map_of_mem _ ha
    rw [aggOut_norm_eq_akeys] at hk
    unfold aggEntBuckets at hk
    rw [aggEnt_keys_mem es [] _] at hk
    rcases hk with h | ⟨e, he, hv, hkey⟩
    · simp [akeys] at h
    · exact ⟨e, he, hv, hkey.symm⟩
  · exact ⟨"Registrazione", by decide⟩

/-- Witness for C5 (amended) at the concrete mention `"Registrazione"`. -/
theorem C5_witness :
    ∃ e ∈ [regMention], entValid e ∧
      (finalizeEntityBucket ("registrazione", initEntityBucket regMention)
        ).nome_entita_norm = pyLower (pyStrip e.nome_entita) :=
  C5_bucket_key_is_plain_lowercase.1 [regMention] _ (by
    have h : aggregateEntitiesImproved [regMention] =
        [finalizeEntityBucket ("registrazione", initEntityBucket regMention)] :=
      rfl
    rw [h]
    exact List.mem_singleton_self _)

/-! ### `most_common` specification (C9) -/

theorem headD_mem {α : Type} (l : List α) (d : α) (h : l ≠ []) :
    l.headD d ∈ l := by
  cases l with
  | nil => exact absurd rfl h
  | cons x xs => exact List.mem_cons_self x xs

theorem firstOccsAux_mem {α : Type} [DecidableEq α] (y : α) :
    ∀ (l : List α) (seen : List α),
      y ∈ firstOccsAux seen l ↔ y ∉ seen ∧ y ∈ l := by
  intro l
  induction l with
  | nil => intro seen; simp [firstOccsAux]
  | cons x xs ih =>
    intro seen
    by_cases hx : x ∈ seen
    · rw [firstOccsAux, if_pos hx, ih]
      constructor
      · rintro ⟨h1, h2⟩
        exact ⟨h1, List.mem_cons_of_mem x h2⟩
      · rintro ⟨h1, h2⟩
        rcases List.mem_cons.mp h2 with rfl | h2'
        · exact absurd hx h1
        · exact ⟨h1, h2'⟩
    · rw [firstOccsAux, if_neg hx]
      by_cases hyx : y = x
      · subst hyx
        simp [hx]
      · simp only [List.mem_cons, hyx, false_or]
        rw [ih]
        simp [hyx]

theorem firstOccs_mem {α : Type} [DecidableEq α] (l : List α) (y : α) :
    y ∈ firstOccs l ↔ y ∈ l := by
  rw [firstOccs, firstOccsAux_mem]
  simp

/-- `firstOccsAux` lists elements in strictly increasing order of first
occurrence. -/
theorem firstOccsAux_pairwise {α : Type} [DecidableEq α] :
    ∀ (l : List α) (seen : List α),
      (firstOccsAux seen l).Pairwise
        (fun a b => l.indexOf a < l.indexOf b) := by
  intro l
  induction l with
  | nil => intro seen; simp [firstOccsAux]
  | cons x xs ih =>
    intro seen
    have hshift : ∀ (z : α), z ≠ x →
        (x :: xs).indexOf z = (xs.indexOf z) + 1 := by
      intro z hz
      exact List.indexOf_cons_ne xs (fun he => hz he.symm)
    by_cases hx : x ∈ seen
    · rw [firstOccsAux, if_pos hx]
      refine List.Pairwise.imp_of_mem ?_ (ih seen)
      intro a b ha hb hlt
      have hax : a ≠ x := by
        intro he; subst he
        exact ((firstOccsAux_mem a xs seen).mp ha).1 hx
      have hbx : b ≠ x := by
        intro he; subst he
        exact ((firstOccsAux_mem b xs seen).mp hb).1 hx
      rw [hshift a hax, hshift b hbx]
      exact Nat.succ_lt_succ hlt
    · rw [firstOccsAux, if_neg hx]
      refine List.pairwise_cons.mpr ⟨?_, ?_⟩
      · intro b hb
        have hbx : b ≠ x := fun he =>
          ((firstOccsAux_mem b xs (x :: seen)).mp hb).1
            (by rw [he]; exact List.mem_cons_self x seen)
        rw [List.indexOf_cons_self, hshift b hbx]
        exact Nat.succ_pos _
      · refine List.Pairwise.imp_of_mem ?_ (ih (x :: seen))
        intro a b ha hb hlt
        have hax : a ≠ x := fun he =>
          ((firstOccsAux_mem a xs (x :: seen)).mp ha).1
            (by rw [he]; exact List.mem_cons_self x seen)
        have hbx : b ≠ x := fun he =>
          ((firstOccsAux_mem b xs (x :: seen)).mp hb).1
            (by rw [he]; exact List.mem_cons_self x seen)
        rw [hshift a hax, hshift b hbx]
        exact Nat.succ_lt_succ hlt

theorem firstOccs_pairwise {α : Type} [DecidableEq α] (l : List α) :
    (firstOccs l).Pairwise (fun a b => l.indexOf a < l.indexOf b) :=
  firstOccsAux_pairwise l []

theorem firstOccs_cons {α : Type} [DecidableEq α] (x : α) (xs : List α) :
    firstOccs (x :: xs) = x :: firstOccsAux [x] xs := by
  rw [firstOccs, firstOccsAux]
  simp

/-- Invariant of the `most_common` fold: the running best is a maximal-
count element among the candidates seen, and on ties the earliest. -/
theorem mcGo_spec (l : List String) :
    ∀ (cs : List String) (b : String), b ∈ l → (∀ c ∈ cs, c ∈ l) →
      List.Pairwise (fun x y => l.indexOf x < l.indexOf y) (b :: cs) →
      mcGo l b cs ∈ l ∧
      (l.count b ≤ l.count (mcGo l b cs) ∧
        ∀ c ∈ cs, l.count c ≤ l.count (mcGo l b cs)) ∧
      (∀ c, (c = b ∨ c ∈ cs) → l.count c = l.count (mcGo l b cs) →
        l.indexOf (mcGo l b cs) ≤ l.indexOf c) := by
  intro cs
  induction cs with
  | nil =>
    intro b hb _ _
    refine ⟨hb, ⟨le_refl _, by simp⟩, ?_⟩
    rintro c (rfl | hc) _
    · exact le_refl _
    · cases hc
  | cons c cs ih =>
    intro b hb hcs hpw
    have hpw' := List.pairwise_cons.mp hpw
    have hpwc := List.pairwise_cons.mp hpw'.2
    by_cases hlt : l.count b < l.count c
    · have hstep : mcGo l b (c :: cs) = mcGo l c cs := by simp [mcGo, hlt]
      obtain ⟨h1, h2, h3⟩ := ih c (hcs c (List.mem_cons_self c cs))
        (fun z hz => hcs z (List.mem_cons_of_mem c hz)) hpw'.2
      rw [hstep]
      refine ⟨h1, ⟨le_trans (le_of_lt hlt) h2.1, ?_⟩, ?_⟩
      · intro z hz
        rcases List.mem_cons.mp hz with rfl | hz'
        · exact h2.1
        · exact h2.2 z hz'
      · rintro z (rfl | hz) heq
        · exfalso
          have : l.count z < l.count (mcGo l c cs) :=
            lt_of_lt_of_le hlt h2.1
          omega
        · rcases List.mem_cons.mp hz with rfl | hz'
          · exact h3 z (Or.inl rfl) heq
          · exact h3 z (Or.inr hz') heq
    · have hstep : mcGo l b (c :: cs) = mcGo l b cs := by simp [mcGo, hlt]
      have hpwb : List.Pairwise (fun x y => l.indexOf x < l.indexOf y)
          (b :: cs) := by
        refine List.pairwise_cons.mpr ⟨?_, hpwc.2⟩
        intro y hy
        exact hpw'.1 y (List.mem_cons_of_mem c hy)
      obtain ⟨h1, h2, h3⟩ := ih b hb
        (fun z hz => hcs z (List.mem_cons_of_mem c hz)) hpwb
      rw [hstep]
      refine ⟨h1, ⟨h2.1, ?_⟩, ?_⟩
      · intro z hz
        rcases List.mem_cons.mp hz with rfl | hz'
        · exact le_trans (le_of_not_lt hlt) h2.1
        · exact h2.2 z hz'
      · rintro z (rfl | hz) heq
        · exact h3 z (Or.inl rfl) heq
        · rcases List.mem_cons.mp hz with rfl | hz'
          · have hcb : l.count z ≤ l.count b := le_of_not_lt hlt
            have hbr : l.count b ≤ l.count (mcGo l b cs) := h2.1
            have hbeq : l.count b = l.count (mcGo l b cs) := by omega
            have hres := h3 b (Or.inl rfl) hbeq
            have hbz : l.indexOf b < l.indexOf z :=
              hpw'.1 z (List.mem_cons_self z cs)
            omega
          · exact h3 z (Or.inr hz') heq

/-- `Counter(l).most_common(1)[0][0]` picks an element of maximal count;
ties go to the element whose first occurrence is earliest. -/
theorem mostCommon_spec (l : List String) (hne : l ≠ []) :
    mostCommon l ∈ l ∧
    (∀ t ∈ l, l.count t ≤ l.count (mostCommon l)) ∧
    (∀ t ∈ l, l.count t = l.count (mostCommon l) →
      l.indexOf (mostCommon l) ≤ l.indexOf t) := by
  obtain ⟨x, xs, rfl⟩ := List.exists_cons_of_ne_nil hne
  have hfo := firstOccs_cons x xs
  have hmc : mostCommon (x :: xs) = mcGo (x :: xs) x (firstOccsAux [x] xs) := by
    rw [mostCommon, hfo]
  have hpw : List.Pairwise
      (fun a b => (x :: xs).indexOf a < (x :: xs).indexOf b)
      (x :: firstOccsAux [x] xs) := by
    have h := firstOccs_pairwise (x :: xs)
    rwa [hfo] at h
  have hcs : ∀ c ∈ firstOccsAux [x] xs, c ∈ x :: xs := by
    intro c hc
    exact List.mem_cons_of_mem x ((firstOccsAux_mem c xs [x]).mp hc).2
  obtain ⟨h1, h2, h3⟩ := mcGo_spec (x :: xs) _ x (List.mem_cons_self x xs)
    hcs hpw
  rw [hmc]
  refine ⟨h1, ?_, ?_⟩
  · intro t ht
    have htf : t ∈ firstOccs (x :: xs) := (firstOccs_mem _ t).mpr ht
    rw [hfo] at htf
    rcases List.mem_cons.mp htf with rfl | hF
    · exact h2.1
    · exact h2.2 t hF
  · intro t ht heq
    have htf : t ∈ firstOccs (x :: xs) := (firstOccs_mem _ t).mpr ht
    rw [hfo] at htf
    rcases List.mem_cons.mp htf with rfl | hF
    · exact h3 t (Or.inl rfl) heq
    · exact h3 t (Or.inr hF) heq

/-! ### C9 — canonical type: majority with first-seen tie-break -/

/-- C9: for every aggregated record, the canonical type is an asserted
type of the bucket's contributing mentions of maximal multiplicity, and
among the maximal ones it is the one asserted first (the behaviour of
`Counter(...).most_common(1)`).  In particular two mentions differing
only in case land in one bucket and tie-break to the first-seen type. -/
theorem C9_canonical_type_majority_first_seen (es : List RawEntity)
    (a : AggregatedEntity) (ha : a ∈ aggregateEntitiesImproved es) :
    contributingTypes es a.nome_entita_norm ≠ [] ∧
    a.tipo_entita_canonico_provvisorio ∈
      contributingTypes es a.nome_entita_norm ∧
    (∀ t ∈ contributingTypes es a.nome_entita_norm,
      (contributingTypes es a.nome_entita_norm).count t ≤
        (contributingTypes es a.nome_entita_norm).count
          a.tipo_entita_canonico_provvisorio) ∧
    (∀ t ∈ contributingTypes es a.nome_entita_norm,
      (contributingTypes es a.nome_entita_norm).count t =
        (contributingTypes es a.nome_entita_norm).count
          a.tipo_entita_canonico_provvisorio →
      (contributingTypes es a.nome_entita_norm).indexOf
          a.tipo_entita_canonico_provvisorio ≤
        (contributingTypes es a.nome_entita_norm).indexOf t) := by
  obtain ⟨kb, hkb, rfl⟩ := List.mem_map.mp ha
  have hnd : (akeys (aggEntBuckets es)).Nodup :=
    aggEnt_keys_nodup es [] (by simp [akeys])
  have hlk : alookup kb.1 (aggEntBuckets es) = some kb.2 := by
    obtain ⟨k, b⟩ := kb
    exact alookup_of_mem_nodup hkb hnd
  unfold aggEntBuckets at hlk
  rw [aggEnt_lookup es [] kb.1] at hlk
  simp only [alookup] at hlk
  rcases hf : es.filter (fun e => entValid e && decide (entKey e = kb.1)) with
    _ | ⟨e, tl⟩
  · rw [hf] at hlk; cases hlk
  · rw [hf] at hlk
    have hb : kb.2 = tl.foldl updEntityBucket (initEntityBucket e) :=
      (Option.some.inj hlk).symm
    have hnorm : (finalizeEntityBucket kb).nome_entita_norm = kb.1 := rfl
    have htypes : contributingTypes es kb.1 =
        e.tipo_entita :: tl.map (fun e => e.tipo_entita) := by
      rw [contributingTypes, contributingMentions, hf]
      simp
    have htipi : kb.2.tipi_rilevati = contributingTypes es kb.1 := by
      rw [hb, foldl_upd_tipi, htypes]
      simp [initEntityBucket]
    have hcanon : (finalizeEntityBucket kb).tipo_entita_canonico_provvisorio =
        mostCommon (contributingTypes es kb.1) := by
      show mostCommon kb.2.tipi_rilevati = _
      rw [htipi]
    have hne : contributingTypes es kb.1 ≠ [] := by
      rw [htypes]; exact List.cons_ne_nil _ _
    obtain ⟨h1, h2, h3⟩ := mostCommon_spec (contributingTypes es kb.1) hne
    rw [hnorm, hcanon]
    exact ⟨hne, h1, h2, h3⟩

/-- Witness for C9 at the spec's scenario: `"Registrazione Utente PA"` /
`FunzionalitàPiattaforma` and `"registrazione utente pa"` /
`PiattaformaModulo` land in one bucket whose canonical type tie-breaks to
the first-seen `FunzionalitàPiattaforma`. -/
theorem C9_witness :
    ((aggregateEntitiesImproved [scenarioMention1, scenarioMention2]).headD
        blankAggEntity).tipo_entita_canonico_provvisorio =
      "FunzionalitàPiattaforma" ∧
    contributingTypes [scenarioMention1, scenarioMention2]
      ((aggregateEntitiesImproved [scenarioMention1, scenarioMention2]).headD
        blankAggEntity).nome_entita_norm ≠ [] ∧
    ((aggregateEntitiesImproved [scenarioMention1, scenarioMention2]).headD
        blankAggEntity).tipo_entita_canonico_provvisorio ∈
      contributingTypes [scenarioMention1, scenarioMention2]
        ((aggregateEntitiesImproved [scenarioMention1, scenarioMention2]).headD
          blankAggEntity).nome_entita_norm := by
  have hmem := headD_mem (aggregateEntitiesImproved
    [scenarioMention1, scenarioMention2]) blankAggEntity (by decide)
  have h := C9_canonical_type_majority_first_seen
    [scenarioMention1, scenarioMention2] _ hmem
  exact ⟨by decide, h.1, h.2.1⟩

/-! ### C7 — predicate vocabulary -/

theorem find_closest_predicate_mem (s : String) :
    find_closest_predicate s ∈ RELATION_TYPES := by
  unfold find_closest_predicate
  rcases hf : PREDICATE_MAPPINGS.find? (fun kv => pyIn kv.1 (pyLower s)) with
    _ | kv
  · simp only [hf]
    decide
  · simp only [hf]
    have hkv := List.mem_of_find?_eq_some hf
    have hall : ∀ kv ∈ PREDICATE_MAPPINGS, kv.2 ∈ RELATION_TYPES := by decide
    exact hall kv hkv

theorem extractPredicato_mem {fs : List (String × Json)} {p : String}
    (h : extractPredicato fs = Except.ok p) : p ∈ RELATION_TYPES := by
  unfold extractPredicato at h
  rcases hl : alookup "predicato_cluster" fs with _ | j
  · rw [hl] at h
    obtain rfl := Except.ok.inj h
    exact find_closest_predicate_mem ""
  · rcases j with _ | b | n | s' | elems | gs
    case str =>
      rw [hl] at h
      obtain rfl := Except.ok.inj h
      by_cases hs : s' ∈ RELATION_TYPES
      · rwa [if_pos hs]
      · rw [if_neg hs]
        exact find_closest_predicate_mem s'
    all_goals rw [hl] at h; cases h

theorem parseRelItem_pred (j : Json) (c : RelClusterProposal)
    (h : parseRelItem j = Except.ok (some c)) :
    c.predicato_cluster ∈ RELATION_TYPES := by
  unfold parseRelItem at h
  repeat' split at h
  all_goals simp at h
  subst h
  exact extractPredicato_mem (by assumption)

theorem parseRelClusterItems_pred :
    ∀ (items : List Json) (rcs : List RelClusterProposal),
      parseRelClusterItems items = Except.ok rcs →
      ∀ c ∈ rcs, c.predicato_cluster ∈ RELATION_TYPES := by
  intro items
  induction items with
  | nil =>
    intro rcs h c hc
    rw [parseRelClusterItems] at h
    obtain rfl := Except.ok.inj h
    cases hc
  | cons j rest ih =>
    intro rcs
    rw [parseRelClusterItems]
    rcases hj : parseRelItem j with e | oc
    · intro h; cases h
    · rcases oc with _ | c'
      · intro h c hc
        exact ih rcs h c hc
      · rcases hrest : parseRelClusterItems rest with e | tl
        · intro h; cases h
        · intro h c hc
          obtain rfl := Except.ok.inj h
          rcases List.mem_cons.mp hc with rfl | hc'
          · exact parseRelItem_pred j c hj
          · exact ih tl hrest c hc'

/-- The lowercased aggregated predicate of `"haPassoSuccessivo"` survives
into a singleton relation cluster (both through the batch fallback and
through `create_single_relation_cluster`) while lying outside
`RELATION_TYPES`: relation clusters produced by the clustering engine do
*not* always carry a vocabulary predicate. -/
theorem C7_counterexample :
    (∃ ar ∈ aggregateRelationsImproved [rawPassoRel],
      ar.predicato_norm = "hapassosuccessivo" ∧
      (create_single_relation_cluster ar 0 ar.soggetto_norm ar.oggetto_norm
        ).predicato_cluster ∉ RELATION_TYPES) ∧
    (∃ rc ∈ (processCombinedBatch []
        (prepareRelationsForClustering (aggregateRelationsImproved [rawPassoRel]))
        "" none).2,
      rc.predicato_cluster ∉ RELATION_TYPES) ∧
    "haPassoSuccessivo" ∈ RELATION_TYPES := by decide

/-- C7 (amended): `find_closest_predicate` always returns an element of
`RELATION_TYPES`, and every relation cluster accepted from parsed model
output carries a vocabulary predicate after correction; only the
singleton fallback clusters keep the lowercased aggregated predicate,
which can lie outside the vocabulary (see the counterexample). -/
theorem C7_parse_predicates_in_vocabulary (s : String) (decoded : Option Json)
    (res : List EntityClusterProposal × List RelClusterProposal)
    (h : parseCombinedClusteringOutput decoded = Except.ok res) :
    find_closest_predicate s ∈ RELATION_TYPES ∧
    ∀ c ∈ res.2, c.predicato_cluster ∈ RELATION_TYPES := by
  refine ⟨find_closest_predicate_mem s, ?_⟩
  unfold parseCombinedClusteringOutput at h
  repeat' split at h
  all_goals try (cases h)
  exact parseRelClusterItems_pred _ _ (by assumption)

/-- Witness for C7 (amended) at a concrete out-of-vocabulary predicate
and a concrete well-formed (empty) parsed output. -/
theorem C7_witness :
    find_closest_predicate "fa parte di" ∈ RELATION_TYPES ∧
    ∀ c ∈ (([], []) :
        List EntityClusterProposal × List RelClusterProposal).2,
      c.predicato_cluster ∈ RELATION_TYPES :=
  C7_parse_predicates_in_vocabulary "fa parte di" (some (Json.obj []))
    ([], []) rfl

/-! ### C8 — fallback query discipline -/

theorem chunkLookup_filter_fallback (ids : List String) :
    (ids.map RetrievalEvent.chunkLookup).filter isFallbackEvent = [] := by
  induction ids with
  | nil => rfl
  | cons i ids ih =>
    rw [List.map_cons, List.filter_cons]
    simp only [isFallbackEvent, Bool.false_eq_true, if_false]
    exact ih

/-- The text-augmentation phase contributes no fallback events. -/
theorem txTrace_filter_fallback (c : Prop) [Decidable c] (t : String)
    (ids : List String) :
    (((if c then (t, ids.map RetrievalEvent.chunkLookup) else ("", [])) :
        String × List RetrievalEvent).2).filter isFallbackEvent = [] := by
  split
  · exact chunkLookup_filter_fallback ids
  · rfl

/-- C8: on an analysis with at least one key entity, `retrieve_knowledge`
executes the fallback query (on the first token of the first key
entity's lowercased name) exactly once when the primary phase produced no
rows, and never when it produced rows. -/
theorem C8_fallback_exactly_once (env : RetrievalEnv) (d : AnalysisDict)
    (ec : List KeyEntityDict) (rt : Bool)
    (h1 : d.entita_chiave = some ec) (h2 : ec ≠ []) :
    (primaryRows env d = [] →
      ((retrieveKnowledge env
          (RetrieverInput.ofValue (AnalysisValue.dict d)) rt).2).filter
          isFallbackEvent =
        [RetrievalEvent.query (GraphQuery.fallback (fallbackToken ec))]) ∧
    (primaryRows env d ≠ [] →
      ((retrieveKnowledge env
          (RetrieverInput.ofValue (AnalysisValue.dict d)) rt).2).filter
          isFallbackEvent = []) := by
  have hec : ¬ ec.isEmpty := by
    cases ec with
    | nil => exact absurd rfl h2
    | cons a l => simp
  unfold retrieveKnowledge primaryRows
  simp only [h1]
  by_cases hcy : generateCypherFromAnalysis env.availableRels d = ""
  · simp only [hcy, ne_eq, not_true_eq_false, if_false, List.isEmpty_nil,
      true_and, hec, not_false_eq_true, if_true, ite_not]
    constructor
    · intro _
      simp [List.filter_append, isFallbackEvent, chunkLookup_filter_fallback,
        txTrace_filter_fallback]
    · intro hpr
      exact hpr.elim
  · simp only [ne_eq, hcy, not_false_eq_true, if_true]
    by_cases hrows :
        env.runQuery (GraphQuery.primary
          (generateCypherFromAnalysis env.availableRels d)) = []
    · simp only [hrows, List.isEmpty_nil, hec, not_false_eq_true, and_self,
        if_true, true_and]
      constructor
      · intro _
        simp [List.filter_append, isFallbackEvent, chunkLookup_filter_fallback,
          txTrace_filter_fallback]
      · intro hpr
        exact absurd trivial hpr
    · have hempty : (env.runQuery (GraphQuery.primary
          (generateCypherFromAnalysis env.availableRels d))).isEmpty = false := by
        cases hqr : env.runQuery (GraphQuery.primary
          (generateCypherFromAnalysis env.availableRels d)) with
        | nil => exact absurd hqr hrows
        | cons a l => simp
      simp only [hrows, hempty, Bool.false_eq_true, false_and, if_false]
      constructor
      · intro hpr
        exact hpr.elim
      · intro _
        simp [List.filter_append, isFallbackEvent, chunkLookup_filter_fallback,
          txTrace_filter_fallback]

/-- Witness for C8: a one-entity analysis without intent yields an empty
primary phase and exactly one fallback on the token `"cambiare"`. -/
theorem C8_witness :
    primaryRows emptyRetrievalEnv sampleAnalysisNoIntent = [] ∧
    ((retrieveKnowledge emptyRetrievalEnv
        (RetrieverInput.ofValue (AnalysisValue.dict sampleAnalysisNoIntent))
        true).2).filter isFallbackEvent =
      [RetrievalEvent.query (GraphQuery.fallback "cambiare")] := by
  have h := (C8_fallback_exactly_once emptyRetrievalEnv sampleAnalysisNoIntent
    [⟨"cambiare password", "AzioneUtente"⟩] true rfl (by decide)).1 rfl
  have htok : fallbackToken [⟨"cambiare password", "AzioneUtente"⟩] =
      "cambiare" := by decide
  rw [htok] at h
  exact ⟨rfl, h⟩

/-! ### C3 — graph loading: node upsert vs. edge create -/

/-- Lookup characterization of the node-merge fold: the stored properties
are those of the last valid row with that name. -/
theorem mergeFold_lookup (rows : List FinalEntityCluster)
    (m : List (String × NodeProps)) (k : String) :
    alookup k (rows.foldl mergeEntityRow m) =
      match lastMatch k rows with
      | some e => some (nodePropsOf e)
      | none => alookup k m := by
  induction rows generalizing m with
  | nil => simp [lastMatch]
  | cons e rest ih =>
    rw [List.foldl_cons, ih (mergeEntityRow m e), lastMatch]
    rcases hl : lastMatch k rest with _ | x
    · by_cases hk : e.nome_entita_cluster = k
      · rw [if_pos hk]
        have hme : alookup k (mergeEntityRow m e) = some (nodePropsOf e) := by
          unfold mergeEntityRow
          by_cases hs : (alookup e.nome_entita_cluster m).isSome = true
          · rw [if_pos hs]
            rw [hk] at hs ⊢
            exact alookup_aupdate_self k _ m ((alookup_isSome_iff k m).mp hs)
          · rw [if_neg hs]
            rw [alookup_append]
            have hnone : alookup k m = none := by
              rw [← hk]
              rcases hmm : alookup e.nome_entita_cluster m with _ | b
              · rfl
              · rw [hmm] at hs; exact absurd rfl hs
            rw [hnone]
            simp [alookup, hk]
        rw [hme]
      · rw [if_neg hk]
        have hme : alookup k (mergeEntityRow m e) = alookup k m := by
          unfold mergeEntityRow
          by_cases hs : (alookup e.nome_entita_cluster m).isSome = true
          · rw [if_pos hs]
            exact alookup_aupdate_ne _ _ _ _ (fun he => hk he.symm)
          · rw [if_neg hs]
            rw [alookup_append]
            rcases hmm : alookup k m with _ | b
            · simp [alookup, hk]
            · rfl
        rw [hme]
    · rfl

/-- A name already present stays present; no new keys appear when every
row's name is already a node. -/
theorem mergeFold_keys_stable (rows : List FinalEntityCluster)
    (m : List (String × NodeProps))
    (h : ∀ e ∈ rows, e.nome_entita_cluster ∈ akeys m) :
    akeys (rows.foldl mergeEntityRow m) = akeys m := by
  induction rows generalizing m with
  | nil => rfl
  | cons e rest ih =>
    rw [List.foldl_cons]
    have hsome : (alookup e.nome_entita_cluster m).isSome = true :=
      (alookup_isSome_iff _ m).mpr (h e (List.mem_cons_self e rest))
    have hstep : akeys (mergeEntityRow m e) = akeys m := by
      unfold mergeEntityRow
      rw [if_pos hsome, akeys_aupdate]
    rw [ih (mergeEntityRow m e) ?_, hstep]
    intro e' he'
    rw [hstep]
    exact h e' (List.mem_cons_of_mem e he')

/-- Node merging never duplicates a key. -/
theorem mergeFold_keys_nodup (rows : List FinalEntityCluster)
    (m : List (String × NodeProps)) (h : (akeys m).Nodup) :
    (akeys (rows.foldl mergeEntityRow m)).Nodup := by
  induction rows generalizing m with
  | nil => exact h
  | cons e rest ih =>
    rw [List.foldl_cons]
    apply ih
    unfold mergeEntityRow
    by_cases hs : (alookup e.nome_entita_cluster m).isSome = true
    · rw [if_pos hs, akeys_aupdate]; exact h
    · rw [if_neg hs, akeys_append]
      refine List.Nodup.append h (by simp [akeys]) ?_
      intro x hx hx'
      simp [akeys] at hx'
      subst hx'
      rcases hmm : alookup e.nome_entita_cluster m with _ | b
      · exact (alookup_eq_none _ m).mp hmm hx
      · rw [hmm] at hs; exact hs rfl

/-- Node merging never drops an existing key. -/
theorem mergeFold_keys_preserve (rows : List FinalEntityCluster)
    (m : List (String × NodeProps)) (k : String) (hk : k ∈ akeys m) :
    k ∈ akeys (rows.foldl mergeEntityRow m) := by
  induction rows generalizing m with
  | nil => exact hk
  | cons e rest ih =>
    rw [List.foldl_cons]
    apply ih
    unfold mergeEntityRow
    by_cases hs : (alookup e.nome_entita_cluster m).isSome = true
    · rw [if_pos hs, akeys_aupdate]; exact hk
    · rw [if_neg hs, akeys_append]
      exact List.mem_append.mpr (Or.inl hk)

/-- Every row's name ends up among the node keys. -/
theorem mergeFold_keys_mem (rows : List FinalEntityCluster)
    (m : List (String × NodeProps)) (e : FinalEntityCluster)
    (he : e ∈ rows) :
    e.nome_entita_cluster ∈ akeys (rows.foldl mergeEntityRow m) := by
  induction rows generalizing m with
  | nil => cases he
  | cons e' rest ih =>
    rw [List.foldl_cons]
    rcases List.mem_cons.mp he with rfl | he'
    · apply mergeFold_keys_preserve
      unfold mergeEntityRow
      by_cases hs : (alookup e.nome_entita_cluster m).isSome = true
      · rw [if_pos hs, akeys_aupdate]
        exact (alookup_isSome_iff _ m).mp hs
      · rw [if_neg hs, akeys_append]
        simp [akeys]
    · exact ih (mergeEntityRow m e') he'

/-- Association-list extensionality: equal ordered key lists (without
duplicates) and equal lookups force equal lists. -/
theorem assoc_ext {α β : Type} [DecidableEq α] :
    ∀ (m1 m2 : List (α × β)), akeys m1 = akeys m2 → (akeys m1).Nodup →
      (∀ k, alookup k m1 = alookup k m2) → m1 = m2 := by
  intro m1
  induction m1 with
  | nil =>
    intro m2 hk _ _
    cases m2 with
    | nil => rfl
    | cons hd t2 => simp [akeys] at hk
  | cons hd t1 ih =>
    intro m2 hk hnd hl
    obtain ⟨a, b⟩ := hd
    cases m2 with
    | nil => simp [akeys] at hk
    | cons hd2 t2 =>
      obtain ⟨a2, b2⟩ := hd2
      simp only [akeys, List.map_cons, List.cons.injEq] at hk
      obtain ⟨rfl, hkt⟩ := hk
      have hb : b = b2 := by
        have hla := hl a
        simp [alookup] at hla
        exact hla
      subst hb
      simp only [akeys, List.map_cons, List.nodup_cons] at hnd
      have htl : t1 = t2 := by
        apply ih t2 hkt hnd.2
        intro k
        by_cases hka : k = a
        · subst hka
          have h1 : alookup k t1 = none :=
            (alookup_eq_none k t1).mpr hnd.1
          have h2 : alookup k t2 = none := by
            apply (alookup_eq_none k t2).mpr
            rw [show akeys t2 = List.map Prod.fst t2 from rfl, ← hkt]
            exact hnd.1
          rw [h1, h2]
        · have hlk := hl k
          have hne : ¬ (a = k) := fun he => hka he.symm
          simpa [alookup, hne] using hlk
      rw [htl]

/-- One edge step splits off its accumulator. -/
theorem relEdgeStep_acc (nodes : List (String × NodeProps))
    (acc : List (String × String × EdgeProps)) (r : FinalRelationCluster) :
    relEdgeStep nodes acc r = acc ++ relEdgeStep nodes [] r := by
  unfold relEdgeStep
  by_cases hc : (alookup r.soggetto_cluster nodes).isSome = true ∧
      (alookup r.oggetto_cluster nodes).isSome = true
  · rw [if_pos hc, if_pos hc, List.nil_append]
  · rw [if_neg hc, if_neg hc]; simp

/-- Appending nature of the relation-edge fold. -/
theorem relEdgeStep_foldl_append (nodes : List (String × NodeProps))
    (L : List FinalRelationCluster) :
    ∀ acc, L.foldl (relEdgeStep nodes) acc =
      acc ++ L.foldl (relEdgeStep nodes) [] := by
  induction L with
  | nil => intro acc; simp
  | cons r rest ih =>
    intro acc
    rw [List.foldl_cons, List.foldl_cons, ih (relEdgeStep nodes acc r),
      ih (relEdgeStep nodes [] r), relEdgeStep_acc nodes acc r]
    simp

/-- Loading the same clustered dataset twice from the empty graph leaves
the node list literally unchanged on the second pass. -/
theorem upload_entities_idempotent (ents : List FinalEntityCluster) :
    ((ents.filter entityRecValid).foldl mergeEntityRow
      ((ents.filter entityRecValid).foldl mergeEntityRow [])) =
    (ents.filter entityRecValid).foldl mergeEntityRow [] := by
  set rows := ents.filter entityRecValid with hrows
  set N := rows.foldl mergeEntityRow [] with hN
  have hmem : ∀ e ∈ rows, e.nome_entita_cluster ∈ akeys N := by
    intro e he
    exact mergeFold_keys_mem rows [] e he
  have hnd : (akeys N).Nodup := mergeFold_keys_nodup rows [] (by simp [akeys])
  apply assoc_ext _ _ (mergeFold_keys_stable rows N hmem) ?_ ?_
  · rw [mergeFold_keys_stable rows N hmem]; exact hnd
  · intro k
    rw [mergeFold_lookup rows N k]
    rcases hl : lastMatch k rows with _ | e
    · rfl
    · rw [hN, mergeFold_lookup rows [] k, hl]

/-- C3 (amended): a second load of the same clustered dataset leaves the
node count unchanged (nodes are `MERGE`d) but doubles the edge count
(edges are `CREATE`d, not upserted). -/
theorem C3_second_load_nodes_same_edges_double
    (ents : List FinalEntityCluster) (rels : List FinalRelationCluster) :
    nodeCount (loadClustered ents rels (loadClustered ents rels emptyGraph)) =
      nodeCount (loadClustered ents rels emptyGraph) ∧
    edgeCount (loadClustered ents rels (loadClustered ents rels emptyGraph)) =
      2 * edgeCount (loadClustered ents rels emptyGraph) := by
  constructor
  · show ((ents.filter entityRecValid).foldl mergeEntityRow
        ((ents.filter entityRecValid).foldl mergeEntityRow [])).length =
      ((ents.filter entityRecValid).foldl mergeEntityRow []).length
    rw [upload_entities_idempotent ents]
  · show ((rels.filter relationRecValid).foldl
        (relEdgeStep ((ents.filter entityRecValid).foldl mergeEntityRow
          ((ents.filter entityRecValid).foldl mergeEntityRow [])))
        ((rels.filter relationRecValid).foldl
          (relEdgeStep ((ents.filter entityRecValid).foldl mergeEntityRow []))
          [])).length =
      2 * ((rels.filter relationRecValid).foldl
        (relEdgeStep ((ents.filter entityRecValid).foldl mergeEntityRow []))
        []).length
    rw [upload_entities_idempotent ents, relEdgeStep_foldl_append,
      List.length_append]
    omega

/-- Loading the two-node one-edge dataset twice yields two nodes but two
edges — the edge count is not idempotent, refuting the claim as stated. -/
theorem C3_counterexample :
    nodeCount (loadClustered [sampleClusteredEntityA, sampleClusteredEntityB]
      [sampleClusteredRelationAB]
      (loadClustered [sampleClusteredEntityA, sampleClusteredEntityB]
        [sampleClusteredRelationAB] emptyGraph)) = 2 ∧
    edgeCount (loadClustered [sampleClusteredEntityA, sampleClusteredEntityB]
      [sampleClusteredRelationAB] emptyGraph) = 1 ∧
    edgeCount (loadClustered [sampleClusteredEntityA, sampleClusteredEntityB]
      [sampleClusteredRelationAB]
      (loadClustered [sampleClusteredEntityA, sampleClusteredEntityB]
        [sampleClusteredRelationAB] emptyGraph)) ≠ 1 := by decide

/-! ### C2 — finalize_entity_clusters partitions the valid ids -/

/-- The member-id list a combined cluster records is the proposal's. -/
theorem combineClusterData_ids (c : EntityClusterProposal)
    (orig : List AggregatedEntity) :
    (combineClusterData c orig).membri_ids_originali = c.membri_ids := rfl

/-- Indices of `enumFrom` lie in `[k, k + length)`. -/
theorem enumFrom_fst_bounds {α : Type} :
    ∀ (l : List α) (k : Nat) (p : Nat × α), p ∈ l.enumFrom k →
      k ≤ p.1 ∧ p.1 < k + l.length
  | [], _, _, h => absurd h (List.not_mem_nil _)
  | a :: tl, k, p, h => by
    rw [List.enumFrom_cons] at h
    rcases List.mem_cons.mp h with rfl | h'
    · refine ⟨Nat.le_refl _, ?_⟩
      show k < k + (a :: tl).length
      rw [List.length_cons]
      omega
    · have hb := enumFrom_fst_bounds tl (k + 1) p h'
      refine ⟨by omega, ?_⟩
      rw [List.length_cons]
      omega

/-- Every index below the length appears in `enumFrom`, paired with the
element there. -/
theorem mem_enumFrom_of_lt {α : Type} :
    ∀ (l : List α) (k i : Nat) (h : i < l.length),
      (k + i, l.get ⟨i, h⟩) ∈ l.enumFrom k
  | [], _, _, h => absurd h (Nat.not_lt_zero _)
  | a :: tl, k, 0, _ => by
    rw [List.enumFrom_cons]
    exact List.mem_cons_self _ _
  | a :: tl, k, i + 1, h => by
    rw [List.enumFrom_cons]
    apply List.mem_cons_of_mem
    have hi : i < tl.length := by
      rw [List.length_cons] at h
      omega
    have hmem := mem_enumFrom_of_lt tl (k + 1) i hi
    have harith : k + (i + 1) = k + 1 + i := by omega
    rw [harith]
    exact hmem

/-- The indices produced by `enumFrom` are pairwise distinct. -/
theorem enumFrom_pairwise_ne {α : Type} :
    ∀ (l : List α) (k : Nat),
      (l.enumFrom k).Pairwise (fun p q => p.1 ≠ q.1)
  | [], _ => List.Pairwise.nil
  | a :: tl, k => by
    rw [List.enumFrom_cons]
    refine List.Pairwise.cons ?_ (enumFrom_pairwise_ne tl (k + 1))
    intro q hq
    have hb := enumFrom_fst_bounds tl (k + 1) q hq
    show k ≠ q.1
    omega

/-- Invariant of the cluster fold of `finalize_entity_clusters`: the
processed-id list holds exactly the ids of the accepted clusters, and the
accepted clusters are pairwise disjoint. -/
theorem finFold_inv (orig : List AggregatedEntity)
    (ps : List EntityClusterProposal) :
    ∀ st : List FinalEntityCluster × List Int,
      (∀ id : Int, id ∈ st.2 ↔ ∃ f ∈ st.1, id ∈ f.membri_ids_originali) →
      st.1.Pairwise entDisj →
      (∀ id : Int, id ∈ (ps.foldl (finClusterStep orig) st).2 ↔
        ∃ f ∈ (ps.foldl (finClusterStep orig) st).1,
          id ∈ f.membri_ids_originali) ∧
      (ps.foldl (finClusterStep orig) st).1.Pairwise entDisj := by
  induction ps with
  | nil => intro st hmem hpw; exact ⟨hmem, hpw⟩
  | cons c rest ih =>
    intro st hmem hpw
    rw [List.foldl_cons]
    by_cases hg : (c.membri_ids.any fun id => decide (id ∈ st.2)) = true
    · have hstep : finClusterStep orig st c = st := by
        unfold finClusterStep; rw [if_pos hg]
      rw [hstep]
      exact ih st hmem hpw
    · have hstep : finClusterStep orig st c =
          (st.1 ++ [combineClusterData c orig], st.2 ++ c.membri_ids) := by
        unfold finClusterStep; rw [if_neg hg]
      rw [hstep]
      apply ih
      · intro id
        rw [List.mem_append]
        constructor
        · rintro (h1 | h2)
          · obtain ⟨f, hf, hid⟩ := (hmem id).mp h1
            exact ⟨f, List.mem_append.mpr (Or.inl hf), hid⟩
          · refine ⟨combineClusterData c orig,
              List.mem_append.mpr (Or.inr (List.mem_singleton_self _)), ?_⟩
            rw [combineClusterData_ids]
            exact h2
        · rintro ⟨f, hf, hid⟩
          rcases List.mem_append.mp hf with hf1 | hf2
          · exact Or.inl ((hmem id).mpr ⟨f, hf1, hid⟩)
          · rw [List.mem_singleton] at hf2
            subst hf2
            rw [combineClusterData_ids] at hid
            exact Or.inr hid
      · apply List.pairwise_append.mpr
        refine ⟨hpw, by simp, ?_⟩
        intro f1 hf1 f2 hf2
        rw [List.mem_singleton] at hf2
        subst hf2
        intro id hid1 hid2
        rw [combineClusterData_ids] at hid2
        apply hg
        rw [List.any_eq_true]
        exact ⟨id, hid2, by simpa using (hmem id).mpr ⟨f1, hf1, hid1⟩⟩

/-- Every id the cluster fold marks as processed comes from some proposed
cluster (or was processed already). -/
theorem finFold_ids_sub (orig : List AggregatedEntity)
    (ps : List EntityClusterProposal) :
    ∀ st : List FinalEntityCluster × List Int,
      ∀ id ∈ (ps.foldl (finClusterStep orig) st).2,
        id ∈ st.2 ∨ ∃ c ∈ ps, id ∈ c.membri_ids := by
  induction ps with
  | nil => intro st id h; exact Or.inl h
  | cons c rest ih =>
    intro st id h
    rw [List.foldl_cons] at h
    rcases ih (finClusterStep orig st c) id h with h1 | ⟨c', hc', hid⟩
    · unfold finClusterStep at h1
      by_cases hg : (c.membri_ids.any fun id => decide (id ∈ st.2)) = true
      · rw [if_pos hg] at h1
        exact Or.inl h1
      · rw [if_neg hg] at h1
        rcases List.mem_append.mp h1 with h2 | h2
        · exact Or.inl h2
        · exact Or.inr ⟨c, List.mem_cons_self c rest, h2⟩
    · exact Or.inr ⟨c', List.mem_cons_of_mem c hc', hid⟩

/-- Any cluster of the singleton phase carries exactly one member id: an
unclaimed in-range index. -/
theorem singles_mem (orig : List AggregatedEntity) (claimed : List Int)
    (f : FinalEntityCluster)
    (hf : f ∈ orig.enum.filterMap (fun ie =>
      if (ie.1 : Int) ∈ claimed then none
      else some (createSingleEntityCluster ie.2 (ie.1 : Int)))) :
    ∃ i : Nat, i < orig.length ∧ (i : Int) ∉ claimed ∧
      f.membri_ids_originali = [(i : Int)] := by
  rw [List.mem_filterMap] at hf
  obtain ⟨ie, hmem, heq⟩ := hf
  by_cases hc : (ie.1 : Int) ∈ claimed
  · rw [if_pos hc] at heq
    cases heq
  · rw [if_neg hc] at heq
    have hb := enumFrom_fst_bounds orig 0 ie hmem
    refine ⟨ie.1, by omega, hc, ?_⟩
    have hfe : f = createSingleEntityCluster ie.2 (ie.1 : Int) :=
      (Option.some.inj heq).symm
    rw [hfe]
    rfl

/-- Pasting the accepted clusters with the unclaimed singletons yields a
partition of the in-range ids, given the invariants of the fold. -/
theorem partition_assemble (orig : List AggregatedEntity)
    (F : List FinalEntityCluster) (P : List Int)
    (hmem : ∀ id : Int, id ∈ P ↔ ∃ f ∈ F, id ∈ f.membri_ids_originali)
    (hpw : F.Pairwise entDisj)
    (hub : ∀ id : Int, id ∈ P → 0 ≤ id ∧ id.toNat < orig.length) :
    (∀ id : Int, (∃ f ∈ F ++ orig.enum.filterMap (fun ie =>
          if (ie.1 : Int) ∈ P then none
          else some (createSingleEntityCluster ie.2 (ie.1 : Int))),
        id ∈ f.membri_ids_originali) ↔
      0 ≤ id ∧ id.toNat < orig.length) ∧
    (F ++ orig.enum.filterMap (fun ie =>
        if (ie.1 : Int) ∈ P then none
        else some (createSingleEntityCluster ie.2 (ie.1 : Int)))).Pairwise
      entDisj := by
  constructor
  · intro id
    constructor
    · rintro ⟨f, hf, hid⟩
      rcases List.mem_append.mp hf with hf1 | hf2
      · exact hub id ((hmem id).mpr ⟨f, hf1, hid⟩)
      · obtain ⟨i, hi, _, hids⟩ := singles_mem orig P f hf2
        rw [hids, List.mem_singleton] at hid
        subst hid
        refine ⟨Int.natCast_nonneg i, ?_⟩
        rw [Int.toNat_natCast]
        exact hi
    · rintro ⟨h0, hlen⟩
      by_cases hidP : id ∈ P
      · obtain ⟨f, hf, hid⟩ := (hmem id).mp hidP
        exact ⟨f, List.mem_append.mpr (Or.inl hf), hid⟩
      · have hcast : ((id.toNat : Nat) : Int) = id := Int.toNat_of_nonneg h0
        have hnc : ((id.toNat : Nat) : Int) ∉ P := by
          rw [hcast]; exact hidP
        refine ⟨createSingleEntityCluster (orig.get ⟨id.toNat, hlen⟩)
            ((id.toNat : Nat) : Int),
          List.mem_append.mpr (Or.inr ?_), ?_⟩
        · rw [List.mem_filterMap]
          refine ⟨(id.toNat, orig.get ⟨id.toNat, hlen⟩), ?_, ?_⟩
          · have hm := mem_enumFrom_of_lt orig 0 id.toNat hlen
            have hz : 0 + id.toNat = id.toNat := by omega
            rw [hz] at hm
            exact hm
          · show (if ((id.toNat : Nat) : Int) ∈ P then none
                else some (createSingleEntityCluster
                  (orig.get ⟨id.toNat, hlen⟩) ((id.toNat : Nat) : Int))) =
              some (createSingleEntityCluster (orig.get ⟨id.toNat, hlen⟩)
                ((id.toNat : Nat) : Int))
            rw [if_neg hnc]
        · show id ∈ [((id.toNat : Nat) : Int)]
          rw [hcast]
          exact List.mem_singleton_self id
  · apply List.pairwise_append.mpr
    refine ⟨hpw, ?_, ?_⟩
    · rw [List.pairwise_filterMap]
      refine (enumFrom_pairwise_ne orig 0).imp ?_
      intro p q hne b hb b' hb'
      by_cases hcp : (p.1 : Int) ∈ P
      · simp [hcp] at hb
      · by_cases hcq : (q.1 : Int) ∈ P
        · simp [hcq] at hb'
        · simp [hcp] at hb
          simp [hcq] at hb'
          subst hb
          subst hb'
          intro id hid1 hid2
          rw [show (createSingleEntityCluster p.2
              (p.1 : Int)).membri_ids_originali = [(p.1 : Int)] from rfl,
            List.mem_singleton] at hid1
          rw [show (createSingleEntityCluster q.2
              (q.1 : Int)).membri_ids_originali = [(q.1 : Int)] from rfl,
            List.mem_singleton] at hid2
          subst hid1
          exact hne (by exact_mod_cast hid2)
    · intro f1 hf1 f2 hf2
      obtain ⟨i, _, hnc, hids⟩ := singles_mem orig P f2 hf2
      intro id hid1 hid2
      rw [hids, List.mem_singleton] at hid2
      subst hid2
      exact hnc ((hmem _).mpr ⟨f1, hf1, hid1⟩)

/-- C2 counterexample: with one input entity (so the input id set is
just 0) and a proposal claiming the out-of-range id 5, the finalized
clusters carry member-id lists [[5], [0]] — their union contains 5,
which is no input id, so the output is not a partition of the input ids. -/
theorem C2_counterexample :
    ((finalizeEntityClusters [outOfRangeProposal] [blankAggEntity]).map
      (fun f => f.membri_ids_originali)) = [[5], [0]] ∧
    ¬ (0 ≤ (5 : Int) ∧ (5 : Int).toNat <
        ([blankAggEntity] : List AggregatedEntity).length) := by
  decide

/-- C2 (amended): when every proposed member id is an in-range input
index, `finalize_entity_clusters` partitions the input ids — an id
belongs to some final cluster exactly when it is in range, and distinct
final clusters share no id.  (The source does not validate ids, so the
range hypothesis is needed: see the counterexample.) -/
theorem C2_partition_of_valid_ids
    (ps : List EntityClusterProposal) (orig : List AggregatedEntity)
    (hrange : ∀ c ∈ ps, ∀ id ∈ c.membri_ids,
      0 ≤ id ∧ id.toNat < orig.length) :
    (∀ id : Int,
      (∃ f ∈ finalizeEntityClusters ps orig, id ∈ f.membri_ids_originali) ↔
        0 ≤ id ∧ id.toNat < orig.length) ∧
    (finalizeEntityClusters ps orig).Pairwise entDisj := by
  have hout : finalizeEntityClusters ps orig =
      (ps.foldl (finClusterStep orig) ([], [])).1 ++
        orig.enum.filterMap (fun ie =>
          if (ie.1 : Int) ∈ (ps.foldl (finClusterStep orig) ([], [])).2 then
            none
          else some (createSingleEntityCluster ie.2 (ie.1 : Int))) := rfl
  obtain ⟨hmem, hpw⟩ := finFold_inv orig ps ([], [])
    (by intro id; simp) List.Pairwise.nil
  have hub : ∀ id : Int, id ∈ (ps.foldl (finClusterStep orig) ([], [])).2 →
      0 ≤ id ∧ id.toNat < orig.length := by
    intro id hid
    rcases finFold_ids_sub orig ps ([], []) id hid with h1 | ⟨c, hc, hidc⟩
    · exact absurd h1 (List.not_mem_nil id)
    · exact hrange c hc id hidc
  rw [hout]
  exact partition_assemble orig _ _ hmem hpw hub

/-- C2 witness: the partition property evaluated at one valid singleton
proposal over a one-entity input. -/
theorem C2_witness :
    (∀ id : Int,
      (∃ f ∈ finalizeEntityClusters [validSingletonProposal] [blankAggEntity],
        id ∈ f.membri_ids_originali) ↔
        0 ≤ id ∧ id.toNat <
          ([blankAggEntity] : List AggregatedEntity).length) ∧
    (finalizeEntityClusters [validSingletonProposal]
      [blankAggEntity]).Pairwise entDisj :=
  C2_partition_of_valid_ids [validSingletonProposal] [blankAggEntity]
    (by decide)

end KGPipeline

